import Mathlib

/-
Verification of the wikigitia analysis-to-documentation pipeline.

This file gives a shallow embedding, in Lean 4, of the core pure logic of
the pipeline: the GitHub URL builder and file-relevance filter
(src/lib/github.ts), the classification-response parser and its path
validation (src/lib/analyzer.ts, text-parsing variant), the wiki-page
generator's file gathering and citation resolution (src/lib/wiki-generator.ts),
the subsystem merge-on-reanalysis and wiki-generation orchestration
(src/lib/functions.ts), the background-job status/progress writes
(src/app/api/[[...route]]/route.ts), and the startAnalysis handler
(src/app/api/[[...route]]/analyze.ts).  Databases are modelled as lists of
rows, fresh nanoid generation as a counter, and the external GitHub /
reasoning services as function parameters.  JavaScript string operations
are re-implemented over lists of characters so that all definitions
evaluate inside the kernel.
-/

namespace Wikigitia

/-! ### Character-list string operations (JavaScript semantics) -/

/-- Whitespace test used by the `trim` model (ASCII whitespace). -/
def wsChar (c : Char) : Bool := c = ' ' || c = '\t' || c = '\n' || c = '\r'

/-- Model of JavaScript `String.prototype.trim` on a character list. -/
def trimChars (l : List Char) : List Char :=
  ((l.dropWhile wsChar).reverse.dropWhile wsChar).reverse

/-- Model of JavaScript `String.prototype.trim`. -/
def strTrim (s : String) : String := ⟨trimChars s.data⟩

/-- Splits a character list at every separator character, keeping empty parts,
as JavaScript `split` does. -/
def splitCharAux (sep : Char → Bool) : List Char → List Char → List (List Char)
  | [], acc => [acc.reverse]
  | c :: cs, acc =>
    if sep c then acc.reverse :: splitCharAux sep cs [] else splitCharAux sep cs (c :: acc)

/-- Model of JavaScript `String.prototype.split` with a single-character
(or character-class) separator. -/
def strSplitBy (s : String) (sep : Char → Bool) : List String :=
  (splitCharAux sep s.data []).map (fun l => ⟨l⟩)

/-- Substring test on character lists. -/
def listInfixB (needle : List Char) : List Char → Bool
  | [] => needle.isEmpty
  | c :: cs => List.isPrefixOf needle (c :: cs) || listInfixB needle cs

/-- Model of JavaScript `String.prototype.includes`. -/
def strContains (s pat : String) : Bool := listInfixB pat.data s.data

/-- Model of JavaScript `String.prototype.startsWith`. -/
def strStarts (s pre : String) : Bool := List.isPrefixOf pre.data s.data

/-- ASCII lower-casing of one character. -/
def lowChar (c : Char) : Char :=
  if 65 ≤ c.toNat ∧ c.toNat ≤ 90 then Char.ofNat (c.toNat + 32) else c

/-- Model of JavaScript `String.prototype.toLowerCase` (ASCII range). -/
def strLower (s : String) : String := ⟨s.data.map lowChar⟩

/-- Drops a known prefix: model of `s.replace(prefix, "")` when `s` starts
with `prefix` (JavaScript `replace` with a string replaces the first
occurrence, which is the prefix in every use below). -/
def strDropPre (s pre : String) : String := ⟨s.data.drop pre.data.length⟩

/-- JavaScript `String.prototype.length` (all strings involved are ASCII). -/
def strLen (s : String) : Nat := s.data.length

/-! ### GitHubService (src/lib/github.ts) -/

/-- `GitHubService.generateGitHubUrl`: the locally derived citation view URL.
`startLine`/`endLine` are the optional TypeScript parameters. -/
def generateGitHubUrl (owner repo path : String) (startLine endLine : Option Nat) : String :=
  let url := "https://github.com/" ++ owner ++ "/" ++ repo ++ "/blob/main/" ++ path
  match startLine with
  | none => url
  | some s =>
    let url := url ++ "#L" ++ toString s
    match endLine with
    | none => url
    | some e => if e ≠ s then url ++ "-L" ++ toString e else url

/-- The extension allow-list of `GitHubService.isRelevantFile`. -/
def relevantExtensions : List String :=
  [".js", ".jsx", ".ts", ".tsx", ".py", ".java", ".cpp", ".c", ".h",
   ".go", ".rs", ".rb", ".php", ".cs", ".swift", ".kt", ".scala",
   ".vue", ".svelte", ".html", ".css", ".scss", ".sass", ".less",
   ".json", ".yaml", ".yml", ".toml", ".md", ".txt", ".sh", ".bash",
   ".dockerfile", ".gitignore", ".env.example"]

/-- The exact-filename allow-list of `GitHubService.isRelevantFile`. -/
def relevantFiles : List String :=
  ["README.md", "package.json", "requirements.txt", "Cargo.toml",
   "pom.xml", "build.gradle", "CMakeLists.txt", "Makefile", "setup.py",
   "composer.json", "gemfile", "go.mod", "pyproject.toml"]

/-- The noise-directory deny-list of `GitHubService.isRelevantFile`. -/
def ignoredDirs : List String :=
  ["node_modules", ".git", "dist", "build", "__pycache__",
   ".next", ".nuxt", "vendor", "target", "bin", "obj",
   ".vscode", ".idea", "coverage", ".nyc_output"]

/-- `GitHubService.isRelevantFile`, line for line: the lower-cased final path
component is checked against the filename allow-list, then its extension
against the extension allow-list (each with an early `return true`), and only
afterwards is the path checked against the ignored-directory list. -/
def isRelevantFile (path : String) : Bool :=
  let filename := strLower ((strSplitBy path (fun c => c = '/')).getLastD "")
  let extension := "." ++ (strSplitBy filename (fun c => c = '.')).getLastD ""
  if relevantFiles.contains filename then true
  else if relevantExtensions.contains extension then true
  else if ignoredDirs.any
      (fun dir => strContains path ("/" ++ dir ++ "/") || strStarts path (dir ++ "/")) then
    false
  else false

/-! ### Citations and wiki content (src/db/schema.ts) -/

/-- A citation as persisted on a wiki page. -/
structure Citation where
  text : String
  file : String
  startLine : Nat
  endLine : Nat
  url : String
  context : String
deriving DecidableEq, Repr

/-- A table-of-contents entry of a wiki page. -/
structure TocItem where
  title : String
  anchor : String
  level : Nat
deriving DecidableEq, Repr

/-- The structured wiki content returned by the generator. -/
structure WikiContent where
  title : String
  content : String
  citations : List Citation
  tableOfContents : List TocItem
deriving DecidableEq, Repr

/-- The citation post-processing step of `WikiGenerator.generateContent`:
every citation's `url` field is overwritten with the locally computed GitHub
URL, discarding whatever the reasoning service returned in that field. -/
def resolveCitationUrls (owner repo : String) (cs : List Citation) : List Citation :=
  cs.map (fun c =>
    { c with url := generateGitHubUrl owner repo c.file (some c.startLine) (some c.endLine) })

/-! ### AIAnalyzer: classification-response parsing (src/lib/analyzer.ts, text-parsing variant) -/

/-- A subsystem descriptor as produced by the parser.  Fields the response
never sets stay `none` (they are `undefined` in the TypeScript record that is
cast to `SubsystemAnalysis`). -/
structure SubsystemAnalysis where
  name : String
  description : Option String
  stype : Option String
  files : List String
  entryPoints : List String
  dependencies : List String
  complexity : Option String
deriving DecidableEq, Repr

/-- What `AIAnalyzer.parseList` does with one comma-separated item: keep it,
drop it silently, or drop it with a hallucinated-path warning. -/
inductive ItemAction where
  | keep
  | drop
  | warnDrop
deriving DecidableEq, Repr

/-- The per-item decision chain of `AIAnalyzer.parseList`: the six
description-shaped rejections, then either the dependency rule (no slash)
when no file list is supplied, or validation against the repository file
list with a warning for file-path-looking items that are absent from it. -/
def parseItemAction (validFilePaths : Option (List String)) (item : String) : ItemAction :=
  if strContains item " " && !strContains item "/" then .drop
  else if strContains item "(" || strContains item ")" then .drop
  else if strContains item "each" || strContains item "specific" then .drop
  else if strContains item "subdirectory" || strContains item "directory" then .drop
  else if 100 < strLen item then .drop
  else if strContains item "e.g." || strContains item "such as" then .drop
  else
    match validFilePaths with
    | none => if strContains item "/" then .drop else .keep
    | some valid =>
      if valid.contains item then .keep
      else if strContains item "/" || strContains item "." then .warnDrop
      else .drop

/-- The splitting and trimming prefix of `AIAnalyzer.parseList`: split on
commas and semicolons, trim, and drop empty / `none` / `n/a` items. -/
def parseListPre (str : String) : List String :=
  ((strSplitBy str (fun c => c = ',' || c = ';')).map strTrim).filter
    (fun item => !(item = "" || item = "none" || item = "n/a"))

/-- `AIAnalyzer.parseList`: returns the kept items and the warned-about
items (the TypeScript logs the latter with `console.warn`; the model returns
them so the warnings are inspectable). -/
def parseList (str : String) (validFilePaths : Option (List String)) :
    List String × List String :=
  if str = "" || str = "none" || str = "n/a" then ([], [])
  else
    let items := parseListPre str
    (items.filter (fun i => parseItemAction validFilePaths i == ItemAction.keep),
     items.filter (fun i => parseItemAction validFilePaths i == ItemAction.warnDrop))

/-- `AIAnalyzer.normalizeType`: the eight known type names map to
themselves, anything else to `utility`. -/
def normalizeType (t : String) : String :=
  if t = "feature" || t = "service" || t = "utility" || t = "infrastructure" ||
      t = "cli" || t = "api" || t = "frontend" || t = "backend" then t
  else "utility"

/-- `AIAnalyzer.normalizeComplexity`. -/
def normalizeComplexity (c : String) : String :=
  if strContains c "low" then "low"
  else if strContains c "high" then "high"
  else "medium"

/-- The running state of `AIAnalyzer.parseAnalysisResponse`. -/
structure ParseState where
  summary : String
  subs : List SubsystemAnalysis
  cur : Option SubsystemAnalysis
  warnings : List String
deriving DecidableEq, Repr

/-- Pushing the subsystem under construction onto the finished list, as done
when a new `SUBSYSTEM:` header is seen and once at the end: it is kept only
when its name is non-empty (truthiness check in the TypeScript). -/
def pushCur (st : ParseState) : ParseState :=
  match st.cur with
  | none => st
  | some cs =>
    if cs.name ≠ "" then { st with subs := st.subs ++ [cs], cur := none }
    else { st with cur := none }

/-- One line of `AIAnalyzer.parseAnalysisResponse`: `SUMMARY:` and
`SUBSYSTEM:` headers are recognised first; the field lines only apply while a
subsystem is under construction.  `FILES:` and `ENTRY_POINTS:` are parsed
against the repository file list, `DEPENDENCIES:` without it. -/
def processLine (validFilePaths : List String) (st : ParseState) (line : String) : ParseState :=
  let trimmed := strTrim line
  if trimmed = "" then st
  else if strStarts trimmed "SUMMARY:" then
    { st with summary := strTrim (strDropPre trimmed "SUMMARY:") }
  else if strStarts trimmed "SUBSYSTEM:" then
    let st := pushCur st
    let fresh : SubsystemAnalysis :=
      { name := strTrim (strDropPre trimmed "SUBSYSTEM:"), description := none,
        stype := none, files := [], entryPoints := [], dependencies := [],
        complexity := none }
    { st with cur := some fresh }
  else
    match st.cur with
    | none => st
    | some cs =>
      if strStarts trimmed "TYPE:" then
        let v := normalizeType (strLower (strTrim (strDropPre trimmed "TYPE:")))
        { st with cur := some { cs with stype := some v } }
      else if strStarts trimmed "DESCRIPTION:" then
        let v := strTrim (strDropPre trimmed "DESCRIPTION:")
        { st with cur := some { cs with description := some v } }
      else if strStarts trimmed "FILES:" then
        let r := parseList (strTrim (strDropPre trimmed "FILES:")) (some validFilePaths)
        { st with cur := some { cs with files := r.1 }, warnings := st.warnings ++ r.2 }
      else if strStarts trimmed "ENTRY_POINTS:" then
        let r := parseList (strTrim (strDropPre trimmed "ENTRY_POINTS:")) (some validFilePaths)
        { st with cur := some { cs with entryPoints := r.1 }, warnings := st.warnings ++ r.2 }
      else if strStarts trimmed "DEPENDENCIES:" then
        let r := parseList (strTrim (strDropPre trimmed "DEPENDENCIES:")) none
        { st with cur := some { cs with dependencies := r.1 }, warnings := st.warnings ++ r.2 }
      else if strStarts trimmed "COMPLEXITY:" then
        let v := normalizeComplexity (strLower (strTrim (strDropPre trimmed "COMPLEXITY:")))
        { st with cur := some { cs with complexity := some v } }
      else st

/-- `AIAnalyzer.createFallbackSubsystems`: exactly one generic placeholder. -/
def createFallbackSubsystems : List SubsystemAnalysis :=
  [{ name := "Core Application",
     description := some "Main application logic and components",
     stype := some "feature", files := [], entryPoints := [], dependencies := [],
     complexity := some "medium" }]

/-- The classification result: summary, subsystems and accumulated
hallucinated-path warnings. -/
structure AnalysisResult where
  summary : String
  subsystems : List SubsystemAnalysis
  warnings : List String
deriving DecidableEq, Repr

/-- The subsystems actually parsed out of the response text, before the
fallback check. -/
def parsedSubsystems (response : String) (validFilePaths : List String) : ParseState :=
  pushCur ((strSplitBy response (fun c => c = '\n')).foldl (processLine validFilePaths)
    { summary := "", subs := [], cur := none, warnings := [] })

/-- `AIAnalyzer.parseAnalysisResponse`: parse all lines, push the last
subsystem, default the summary, and fall back to the single placeholder
subsystem when nothing was parsed. -/
def parseAnalysisResponse (response : String) (validFilePaths : List String) : AnalysisResult :=
  let st := parsedSubsystems response validFilePaths
  let summary := if st.summary = "" then "Repository analysis completed" else st.summary
  if st.subs = [] then
    { summary := summary, subsystems := createFallbackSubsystems, warnings := st.warnings }
  else
    { summary := summary, subsystems := st.subs, warnings := st.warnings }

/-- The text-parsing `AIAnalyzer.analyzeRepository` (the variant built on
`generateText` + `parseAnalysisResponse`), given that the reasoning service
returned `responseText`: parsing never raises, whatever the text is. -/
def analyzeRepositoryText (responseText : String) (validFilePaths : List String) :
    Except String AnalysisResult :=
  .ok (parseAnalysisResponse responseText validFilePaths)

/-- The schema-validating `AIAnalyzer.analyzeRepository` (the
`generateObject` + zod variant): the service either returns an object that
validated against the schema, or the thrown validation error is re-raised as
`AI analysis failed: ...`.  No path validation happens in this variant. -/
def analyzeRepositoryZod (svcResult : Except String AnalysisResult) :
    Except String AnalysisResult :=
  match svcResult with
  | .ok a => .ok a
  | .error e => .error ("AI analysis failed: " ++ e)

/-! ### Subsystem persistence and merge-on-reanalysis (src/lib/functions.ts, store-subsystems) -/

/-- A row of the `subsystems` table. -/
structure SubRow where
  id : Nat
  repositoryId : String
  name : String
  description : Option String
  stype : String
  files : List String
  entryPoints : List String
  dependencies : List String
  complexity : Option String
  updatedAt : Nat
deriving DecidableEq, Repr

/-- A classified subsystem as handed to the store-subsystems step. -/
structure NewSubsystem where
  name : String
  description : Option String
  stype : String
  files : List String
  entryPoints : List String
  dependencies : List String
  complexity : Option String
deriving DecidableEq, Repr

/-- The `existingSubsystemMap` lookup: a JavaScript `Map` built from the
snapshot keeps the last entry for a duplicated key, so the fold keeps the
last matching row. -/
def mapLookup (snap : List SubRow) (n : String) : Option SubRow :=
  snap.foldl (fun acc r => if r.name = n then some r else acc) none

/-- The `db.update(subsystems).set({...})` payload: description, type,
files, entry points, dependencies, complexity and the updated timestamp are
overwritten; id, repository and name are untouched. -/
def applySubsystemUpdate (r : SubRow) (s : NewSubsystem) (now : Nat) : SubRow :=
  { r with description := s.description, stype := s.stype, files := s.files,
           entryPoints := s.entryPoints, dependencies := s.dependencies,
           complexity := s.complexity, updatedAt := now }

/-- The update targets the row whose primary key matches. -/
def updateSubsystemById (db : List SubRow) (i : Nat) (s : NewSubsystem) (now : Nat) :
    List SubRow :=
  db.map (fun r => if r.id = i then applySubsystemUpdate r s now else r)

/-- A freshly inserted subsystem row (`nanoid()` modelled by a counter). -/
def mkSubRow (i : Nat) (repoId : String) (s : NewSubsystem) (now : Nat) : SubRow :=
  { id := i, repositoryId := repoId, name := s.name, description := s.description,
    stype := s.stype, files := s.files, entryPoints := s.entryPoints,
    dependencies := s.dependencies, complexity := s.complexity, updatedAt := now }

/-- The re-analysis loop of the store-subsystems step: for each classified
subsystem, look its name up in the snapshot map taken before the loop;
update the matched row in place, or insert a fresh row. -/
def storeLoop (snap : List SubRow) (repoId : String) (now : Nat) :
    List SubRow → Nat → List NewSubsystem → List SubRow × Nat
  | db, next, [] => (db, next)
  | db, next, s :: rest =>
    match mapLookup snap s.name with
    | some e => storeLoop snap repoId now (updateSubsystemById db e.id s now) next rest
    | none => storeLoop snap repoId now (db ++ [mkSubRow next repoId s now]) (next + 1) rest

/-- The first-analysis branch: insert every classified subsystem. -/
def insertAllSubsystems (repoId : String) (now : Nat) :
    List SubRow → Nat → List NewSubsystem → List SubRow × Nat
  | db, next, [] => (db, next)
  | db, next, s :: rest =>
    insertAllSubsystems repoId now (db ++ [mkSubRow next repoId s now]) (next + 1) rest

/-- The store-subsystems step of `analyzeRepository`: merge on re-analysis,
plain insert on first analysis.  `existing` is the repository's current
subsystem list, `next0` the fresh-id counter, `now` the update timestamp. -/
def storeSubsystems (isReanalysis : Bool) (repoId : String) (existing : List SubRow)
    (newSubs : List NewSubsystem) (next0 now : Nat) : List SubRow × Nat :=
  if isReanalysis then storeLoop existing repoId now existing next0 newSubs
  else insertAllSubsystems repoId now existing next0 newSubs

/-! ### WikiGenerator file gathering and page generation (src/lib/wiki-generator.ts) -/

/-- One gathered source file (path, truncated content, line count). -/
structure GatheredFile where
  path : String
  content : String
  lines : Nat
deriving DecidableEq, Repr

/-- Keeps the first occurrence of each element, as the
`arr.indexOf(file) === index` filter does. -/
def dedupFirst (l : List String) : List String :=
  l.foldl (fun acc x => if acc.contains x then acc else acc ++ [x]) []

/-- The malformed-path filter of `WikiGenerator.gatherRelevantCode`. -/
def validGatherPath (f : String) : Bool :=
  f ≠ "" && !strContains f "*" && !strContains f ".." && strLen f ≤ 500

/-- The candidate list of `WikiGenerator.gatherRelevantCode`: entry points,
then the first five subsystem files, deduplicated keeping first occurrences,
then filtered for malformed paths. -/
def filesToCheck (entryPoints files : List String) : List String :=
  (dedupFirst (entryPoints ++ files.take 5)).filter validGatherPath

/-- The fetch loop of `WikiGenerator.gatherRelevantCode`: each file is
fetched; a fetch failure is logged and the file skipped; a fetched file is
kept when shorter than 10000 characters, truncated to 5000; the loop breaks
once eight files are gathered. -/
def gatherLoop (fetch : String → Except String String) :
    List String → List GatheredFile → List GatheredFile
  | [], acc => acc
  | f :: rest, acc =>
    let acc :=
      match fetch f with
      | .ok content =>
        if strLen content < 10000 then
          acc ++ [⟨f, ⟨content.data.take 5000⟩, (strSplitBy content (fun c => c = '\n')).length⟩]
        else acc
      | .error _ => acc
    if 8 ≤ acc.length then acc else gatherLoop fetch rest acc

/-- `WikiGenerator.gatherRelevantCode`, with the repository source modelled
as the `fetch` function. -/
def gatherRelevantCode (fetch : String → Except String String)
    (entryPoints files : List String) : List GatheredFile :=
  gatherLoop fetch (filesToCheck entryPoints files) []

/-- The entry a successful fetch of `f` contributes, if any. -/
def gatherEntry (fetch : String → Except String String) (f : String) : Option GatheredFile :=
  match fetch f with
  | .ok content =>
    if strLen content < 10000 then
      some ⟨f, ⟨content.data.take 5000⟩, (strSplitBy content (fun c => c = '\n')).length⟩
    else none
  | .error _ => none

/-- `WikiGenerator.generateWikiPage`: gather code (total, per-file failures
skipped), call the reasoning service on it (modelled by `svc`), overwrite
every citation URL with the locally derived one, and wrap any service
failure in the `Failed to generate wiki page` message. -/
def generateWikiPage (fetch : String → Except String String)
    (svc : List GatheredFile → Except String WikiContent)
    (owner repo : String) (entryPoints files : List String) : Except String WikiContent :=
  match svc (gatherRelevantCode fetch entryPoints files) with
  | .ok parsed => .ok { parsed with citations := resolveCitationUrls owner repo parsed.citations }
  | .error e => .error ("Failed to generate wiki page: " ++ e)

/-! ### Wiki generation orchestration (src/lib/functions.ts, generateWiki) -/

/-- A row of the `wiki_pages` table. -/
structure PageRow where
  id : Nat
  subsystemId : Nat
  title : String
  content : String
  citations : List Citation
  tableOfContents : List TocItem
  updatedAt : Nat
deriving DecidableEq, Repr

/-- One entry of the per-subsystem `results` array. -/
structure GenResultEntry where
  subsystem : String
  success : Bool
  error : Option String
deriving DecidableEq, Repr

/-- The aggregate value returned by `generateWiki` after the loop. -/
structure WikiRunReturn where
  success : Bool
  totalSubsystems : Nat
  successfulSubsystems : Nat
  results : List GenResultEntry
deriving DecidableEq, Repr

/-- `generateWiki` either skips (wiki already present) or runs the loop. -/
inductive WikiRunOutcome where
  | skipped
  | completed (ret : WikiRunReturn)
deriving DecidableEq, Repr

/-- A freshly inserted wiki page row. -/
def mkPageRow (i sid : Nat) (c : WikiContent) (now : Nat) : PageRow :=
  ⟨i, sid, c.title, c.content, c.citations, c.tableOfContents, now⟩

/-- The forced-regeneration update: title, content, citations, table of
contents and the updated timestamp are overwritten on the row with the
matched primary key; id and subsystem are untouched. -/
def updatePageById (db : List PageRow) (pid : Nat) (c : WikiContent) (now : Nat) : List PageRow :=
  db.map (fun p =>
    if p.id = pid then
      { p with title := c.title, content := c.content, citations := c.citations,
               tableOfContents := c.tableOfContents, updatedAt := now }
    else p)

/-- The result entry recorded for one subsystem. -/
def resultEntryOf (gen : SubRow → Except String WikiContent) (sub : SubRow) : GenResultEntry :=
  match gen sub with
  | .ok _ => ⟨sub.name, true, none⟩
  | .error m => ⟨sub.name, false, some m⟩

/-- Whether generation succeeds for a subsystem. -/
def genOk (gen : SubRow → Except String WikiContent) (sub : SubRow) : Bool :=
  match gen sub with
  | .ok _ => true
  | .error _ => false

/-- The sequential per-subsystem loop of `generateWiki`: generation failure
is caught, recorded and the loop continues; on success the page is upserted
(update-in-place when `force` finds an existing page, insert otherwise;
always insert when not forcing). -/
def generatePagesLoop (force : Bool) (gen : SubRow → Except String WikiContent) (now : Nat) :
    List PageRow → List GenResultEntry → Nat → List SubRow →
      List PageRow × List GenResultEntry × Nat
  | db, res, next, [] => (db, res, next)
  | db, res, next, sub :: rest =>
    match gen sub with
    | .error m =>
      generatePagesLoop force gen now db (res ++ [⟨sub.name, false, some m⟩]) next rest
    | .ok c =>
      if force then
        match db.find? (fun p => p.subsystemId == sub.id) with
        | some p =>
          generatePagesLoop force gen now (updatePageById db p.id c now)
            (res ++ [⟨sub.name, true, none⟩]) next rest
        | none =>
          generatePagesLoop force gen now (db ++ [mkPageRow next sub.id c now])
            (res ++ [⟨sub.name, true, none⟩]) (next + 1) rest
      else
        generatePagesLoop force gen now (db ++ [mkPageRow next sub.id c now])
          (res ++ [⟨sub.name, true, none⟩]) (next + 1) rest

/-- `generateWiki` (the pure core): fails when the repository has no
subsystems; skips when not forcing and a page already exists for the FIRST
subsystem in the list (only that one is checked); otherwise runs the loop
and reports the aggregate with `success: true` unconditionally. -/
def generateWikiRun (force : Bool) (subs : List SubRow)
    (gen : SubRow → Except String WikiContent) (db0 : List PageRow) (next0 now : Nat) :
    Except String (List PageRow × WikiRunOutcome) :=
  match subs with
  | [] => .error "No subsystems found for wiki generation"
  | s0 :: _ =>
    if !force && db0.any (fun p => p.subsystemId == s0.id) then .ok (db0, .skipped)
    else
      let r := generatePagesLoop force gen now db0 [] next0 subs
      .ok (r.1, .completed
        ⟨true, subs.length, (r.2.1.filter (fun e => e.success)).length, r.2.1⟩)

/-- Number of wiki pages a subsystem currently has. -/
def countPages (db : List PageRow) (sid : Nat) : Nat :=
  (db.filter (fun p => p.subsystemId == sid)).length

/-! ### Analysis job status and progress writes (src/app/api/[[...route]]/route.ts) -/

/-- The `analysis_status` enum. -/
inductive JStatus where
  | pending
  | in_progress
  | completed
  | failed
deriving DecidableEq, Repr

/-- Forward rank of a status along pending → in_progress → terminal. -/
def JStatus.rank : JStatus → Nat
  | .pending => 0
  | .in_progress => 1
  | .completed => 2
  | .failed => 2

/-- Terminal statuses. -/
def JStatus.isTerminal : JStatus → Bool
  | .completed => true
  | .failed => true
  | _ => false

/-- One `db.update(analysisJobs).set({...})` call: the fields it sets. -/
structure JobWrite where
  wstatus : Option JStatus
  wprogress : Option String
deriving DecidableEq, Repr

/-- Applying one write to the job's (status, progress) pair. -/
def applyWrite (st : JStatus × String) (w : JobWrite) : JStatus × String :=
  (w.wstatus.getD st.1, w.wprogress.getD st.2)

/-- Numeric value of the progress strings the orchestrator writes. -/
def progressValue (s : String) : Nat :=
  if s = "0%" then 0
  else if s = "10%" then 10
  else if s = "30%" then 30
  else if s = "70%" then 70
  else if s = "100%" then 100
  else 0

/-- All states a job passes through, starting from the inserted row
(`status: pending`, `progress: 0%`). -/
def jobStates (ws : List JobWrite) : List (JStatus × String) :=
  ws.scanl applyWrite (JStatus.pending, "0%")

/-- Boolean chain check over adjacent elements. -/
def chainB (f : JStatus × String → JStatus × String → Bool) : List (JStatus × String) → Bool
  | [] => true
  | [_] => true
  | a :: b :: rest => f a b && chainB f (b :: rest)

/-- One step is monotone when the status rank does not decrease, a terminal
state is never left, and the progress value does not decrease. -/
def monotoneStep (a b : JStatus × String) : Bool :=
  decide (a.1.rank ≤ b.1.rank) && (!a.1.isTerminal || decide (b.1 = a.1)) &&
    decide (progressValue a.2 ≤ progressValue b.2)

/-- A write sequence is monotone when every adjacent pair of job states is. -/
def monotoneRun (ws : List JobWrite) : Bool := chainB monotoneStep (jobStates ws)

/-- The awaited operations of `analyzeRepositoryInBackground`, in order; a
thrown failure during any one of them is caught by the single catch block,
which writes `status: failed` (and no progress). -/
inductive BgFailPoint where
  | duringStartWrite
  | duringGetFiles
  | duringProgress30Write
  | duringAnalysis
  | duringProgress70Write
  | duringSubsystemInserts
  | duringRepoStamp
  | duringCompleteWrite
deriving DecidableEq

/-- The job writes `analyzeRepositoryInBackground` performs when the given
operation throws (`none` = the success path).  The post-completion
`generateWikiForRepository` call catches all of its own errors and performs
no job writes, so the trace ends at the terminal write. -/
def backgroundTrace : Option BgFailPoint → List JobWrite
  | none =>
    [⟨some .in_progress, some "10%"⟩, ⟨none, some "30%"⟩, ⟨none, some "70%"⟩,
     ⟨some .completed, some "100%"⟩]
  | some .duringStartWrite => [⟨some .failed, none⟩]
  | some .duringGetFiles => [⟨some .in_progress, some "10%"⟩, ⟨some .failed, none⟩]
  | some .duringProgress30Write => [⟨some .in_progress, some "10%"⟩, ⟨some .failed, none⟩]
  | some .duringAnalysis =>
    [⟨some .in_progress, some "10%"⟩, ⟨none, some "30%"⟩, ⟨some .failed, none⟩]
  | some .duringProgress70Write =>
    [⟨some .in_progress, some "10%"⟩, ⟨none, some "30%"⟩, ⟨some .failed, none⟩]
  | some .duringSubsystemInserts =>
    [⟨some .in_progress, some "10%"⟩, ⟨none, some "30%"⟩, ⟨none, some "70%"⟩,
     ⟨some .failed, none⟩]
  | some .duringRepoStamp =>
    [⟨some .in_progress, some "10%"⟩, ⟨none, some "30%"⟩, ⟨none, some "70%"⟩,
     ⟨some .failed, none⟩]
  | some .duringCompleteWrite =>
    [⟨some .in_progress, some "10%"⟩, ⟨none, some "30%"⟩, ⟨none, some "70%"⟩,
     ⟨some .failed, none⟩]

/-- The job writes of the event-driven `analyzeRepository` function
(src/lib/functions.ts): it sets `in_progress`, then `completed`; it never
writes progress and has no catch block, so a step failure simply truncates
the write sequence. -/
def inngestTrace : List JobWrite :=
  [⟨some .in_progress, none⟩, ⟨some .completed, none⟩]

/-! ### startAnalysis (src/app/api/[[...route]]/analyze.ts, POST handler) -/

/-- A row of the `repositories` table (`stars` is stored as a string). -/
structure RepoRow where
  id : Nat
  url : String
  owner : String
  name : String
  description : Option String
  language : Option String
  stars : String
deriving DecidableEq, Repr

/-- A row of the `analysis_jobs` table (the fields the handler sets;
`progress` takes the schema default `0%`). -/
structure JobRow where
  id : Nat
  repositoryId : Nat
  status : JStatus
  progress : String
deriving DecidableEq, Repr

/-- Repository metadata as returned by `GitHubService.getRepositoryMetadata`
(`url` is the canonical `html_url` reported by the host, not necessarily the
submitted URL). -/
structure RepoMetadata where
  url : String
  owner : String
  name : String
  description : Option String
  language : Option String
  stars : Nat
deriving DecidableEq, Repr

/-- The POST handler: look the submitted URL up among stored repository
rows; reuse the found row's id, else insert a new row carrying the METADATA
url (the `repositories.url` column is UNIQUE, so an insert colliding with a
stored url throws, is caught, and the handler returns the 500 error, having
inserted nothing); finally insert one new pending analysis job. -/
def startAnalysis (url : String) (meta : RepoMetadata) (freshRepoId freshJobId : Nat)
    (repos : List RepoRow) (jobs : List JobRow) :
    Except String (Nat × Nat × List RepoRow × List JobRow) :=
  match repos.find? (fun r => r.url == url) with
  | some r0 => .ok (freshJobId, r0.id, repos, jobs ++ [⟨freshJobId, r0.id, .pending, "0%"⟩])
  | none =>
    if repos.any (fun r => r.url == meta.url) then .error "Failed to start analysis"
    else
      .ok (freshJobId, freshRepoId,
        repos ++ [⟨freshRepoId, meta.url, meta.owner, meta.name, meta.description,
          meta.language, toString meta.stars⟩],
        jobs ++ [⟨freshJobId, freshRepoId, .pending, "0%"⟩])

end Wikigitia

namespace Wikigitia

/-! ### C1: citation URL format and local derivation -/

/-- C1. The citation view URL is computed locally as
`https://github.com/{owner}/{repo}/blob/main/{path}` with fragment
`#L{start}` when no end line is given or when the end equals the start, and
`#L{start}-L{end}` when the end differs; and every citation emitted by the
generator's post-processing carries exactly this locally computed URL,
regardless of the `url` value the reasoning service returned. -/
theorem citation_url_locally_derived :
    (∀ owner repo path s, generateGitHubUrl owner repo path (some s) none =
      "https://github.com/" ++ owner ++ "/" ++ repo ++ "/blob/main/" ++ path
        ++ "#L" ++ toString s) ∧
    (∀ owner repo path s, generateGitHubUrl owner repo path (some s) (some s) =
      "https://github.com/" ++ owner ++ "/" ++ repo ++ "/blob/main/" ++ path
        ++ "#L" ++ toString s) ∧
    (∀ owner repo path s e, e ≠ s → generateGitHubUrl owner repo path (some s) (some e) =
      "https://github.com/" ++ owner ++ "/" ++ repo ++ "/blob/main/" ++ path
        ++ "#L" ++ toString s ++ "-L" ++ toString e) ∧
    (∀ owner repo cs, ∀ c ∈ resolveCitationUrls owner repo cs,
      c.url = generateGitHubUrl owner repo c.file (some c.startLine) (some c.endLine)) := by
  refine ⟨fun o r p s => rfl, fun o r p s => by simp [generateGitHubUrl],
    fun o r p s e he => by simp [generateGitHubUrl, he], ?_⟩
  intro o r cs c hc
  simp only [resolveCitationUrls, List.mem_map] at hc
  obtain ⟨a, -, rfl⟩ := hc
  rfl

/-- Witness for C1 at the spec's own example inputs, including a citation
whose service-supplied `url` field is garbage and gets overwritten. -/
theorem citation_url_locally_derived_witness :
    generateGitHubUrl "o" "r" "src/a.ts" (some 10) (some 20) =
      "https://github.com/o/r/blob/main/src/a.ts#L10-L20" ∧
    generateGitHubUrl "o" "r" "src/a.ts" (some 15) none =
      "https://github.com/o/r/blob/main/src/a.ts#L15" ∧
    ∀ c ∈ resolveCitationUrls "o" "r"
        [⟨"t", "src/a.ts", 3, 3, "javascript:bogus", "ctx"⟩],
      c.url = generateGitHubUrl "o" "r" c.file (some c.startLine) (some c.endLine) := by
  refine ⟨((citation_url_locally_derived.2.2.1) "o" "r" "src/a.ts" 10 20 (by decide)).trans
      (by decide), ((citation_url_locally_derived.1) "o" "r" "src/a.ts" 15).trans (by decide),
    fun c hc => (citation_url_locally_derived.2.2.2) "o" "r" _ c hc⟩

/-! ### C5: the relevance filter on denylisted directories -/

/-- C5. Evaluation of `isRelevantFile` at the claim's inputs: the path under
`node_modules` carrying the allow-listed `.js` extension is ACCEPTED by the
code (the allow-list is consulted before the ignored-directory list, so the
deny-list is dead code for any allow-listed extension or filename), while the
claim, the spec, and the repository's own test runner all expect it to be
rejected.  The deny-list only ever fires for files that would be rejected
anyway, as the third conjunct illustrates. -/
theorem isRelevantFile_denylist_dead_code :
    isRelevantFile "node_modules/pkg/index.js" = true ∧
    isRelevantFile "src/index.js" = true ∧
    isRelevantFile "node_modules/pkg/data.png" = false ∧
    isRelevantFile "dist/bundle.js" = true := by decide

/-! ### C6: job status and progress monotonicity -/

/-- C6. For every failure point of the background orchestrator (and for
every truncation of the event-driven variant's write sequence), the job's
status only moves forward along pending → in_progress → completed/failed,
never changes once terminal, and the progress values are non-decreasing; on
the success path they advance exactly 0 → 10 → 30 → 70 → 100. -/
theorem job_status_progress_monotone :
    (∀ fp : Option BgFailPoint, monotoneRun (backgroundTrace fp) = true) ∧
    (∀ n : Nat, monotoneRun (inngestTrace.take n) = true) ∧
    (jobStates (backgroundTrace none)).map (fun st => progressValue st.2) =
      [0, 10, 30, 70, 100] := by
  refine ⟨?_, ?_, by decide⟩
  · intro fp
    cases fp with
    | none => decide
    | some p => cases p <;> decide
  · intro n
    match n with
    | 0 => decide
    | 1 => decide
    | Nat.succ (Nat.succ m) =>
      rw [List.take_of_length_le (by simp [inngestTrace])]
      decide

/-! ### C9: per-file fetch failures during page generation -/

/-- The gather loop collects, in order, the entries of the successfully
fetched (and small enough) files, capped at eight; failed fetches contribute
nothing and do not stop the loop. -/
theorem gatherLoop_eq_filterMap (fetch : String → Except String String)
    (fs : List String) (acc : List GatheredFile) (h : acc.length < 8) :
    gatherLoop fetch fs acc = (acc ++ fs.filterMap (gatherEntry fetch)).take 8 := by
  induction fs generalizing acc with
  | nil =>
    simp only [gatherLoop, List.filterMap_nil, List.append_nil]
    exact (List.take_of_length_le (Nat.le_of_lt h)).symm
  | cons f rest ih =>
    simp only [gatherLoop, gatherEntry, List.filterMap_cons]
    cases hf : fetch f with
    | error e =>
      have hlt : ¬ 8 ≤ acc.length := Nat.not_le_of_lt h
      simp only [if_neg hlt]
      exact ih acc h
    | ok content =>
      by_cases hsmall : strLen content < 10000
      · simp only [if_pos hsmall]
        set g : GatheredFile :=
          ⟨f, ⟨content.data.take 5000⟩, (strSplitBy content (fun c => c = '\n')).length⟩ with hg
        by_cases hfull : 8 ≤ (acc ++ [g]).length
        · have hlen : (acc ++ [g]).length = 8 := by
            simp only [List.length_append, List.length_singleton] at hfull ⊢
            omega
          simp only [if_pos hfull]
          rw [show acc ++ g :: (rest.filterMap (gatherEntry fetch)) =
            (acc ++ [g]) ++ rest.filterMap (gatherEntry fetch) by simp]
          rw [← hlen, List.take_left]
        · simp only [if_neg hfull]
          rw [ih (acc ++ [g]) (by simp only [List.length_append, List.length_singleton] at hfull ⊢; omega)]
          simp
      · simp only [if_neg hsmall]
        have hlt : ¬ 8 ≤ acc.length := Nat.not_le_of_lt h
        simp only [if_neg hlt]
        exact ih acc h

/-- C9 (amended). A failure to fetch one file's content is skipped while
gathering continues over the remaining files: the gathered list is exactly
the successful fetches (capped at eight), a page is still produced from
whatever was gathered, and — contrary to the original claim — generation
does NOT fail when every fetch fails: it proceeds with an empty gathered
list, and fails only if the reasoning-service call itself fails. -/
theorem wiki_page_generation_fetch_isolation :
    (∀ fetch eps files, gatherRelevantCode fetch eps files =
      ((filesToCheck eps files).filterMap (gatherEntry fetch)).take 8) ∧
    (∀ fetch svc owner repo eps files c,
      svc (gatherRelevantCode fetch eps files) = Except.ok c →
      generateWikiPage fetch svc owner repo eps files =
        Except.ok { c with citations := resolveCitationUrls owner repo c.citations }) ∧
    (∀ m eps files, gatherRelevantCode (fun _ => Except.error m) eps files = []) ∧
    (∀ m svc owner repo eps files c, svc [] = Except.ok c →
      generateWikiPage (fun _ => Except.error m) svc owner repo eps files =
        Except.ok { c with citations := resolveCitationUrls owner repo c.citations }) := by
  have hclosed : ∀ fetch eps files, gatherRelevantCode fetch eps files =
      ((filesToCheck eps files).filterMap (gatherEntry fetch)).take 8 := by
    intro fetch eps files
    exact gatherLoop_eq_filterMap fetch (filesToCheck eps files) [] (by simp)
  have hempty : ∀ m eps files,
      gatherRelevantCode (fun _ => Except.error m) eps files = [] := by
    intro m eps files
    rw [hclosed]
    have h2 : (filesToCheck eps files).filterMap
        (gatherEntry (fun _ => Except.error m)) = [] := by
      rw [List.filterMap_eq_nil_iff]
      intro f _
      rfl
    rw [h2]
    rfl
  have hok : ∀ fetch svc owner repo eps files c,
      svc (gatherRelevantCode fetch eps files) = Except.ok c →
      generateWikiPage fetch svc owner repo eps files =
        Except.ok { c with citations := resolveCitationUrls owner repo c.citations } := by
    intro fetch svc owner repo eps files c h
    simp only [generateWikiPage, h]
  refine ⟨hclosed, hok, hempty, ?_⟩
  intro m svc owner repo eps files c h
  exact hok _ svc owner repo eps files c (by rw [hempty]; exact h)

/-- A fetch model that fails on every path. -/
def c9fetchFail : String → Except String String := fun _ => Except.error "404: Not Found"

/-- A reasoning-service model that always produces a fixed page. -/
def c9svc : List GatheredFile → Except String WikiContent :=
  fun _ => Except.ok ⟨"Title", "Body", [], []⟩

/-- C9, counterexample to the claim as stated: for a subsystem with one
(valid, attempted) file whose fetch fails — so EVERY file fetch fails —
page generation does not fail; it returns a page. -/
theorem wiki_page_generation_all_fail_counterexample :
    filesToCheck [] ["src/a.ts"] = ["src/a.ts"] ∧
    c9fetchFail "src/a.ts" = Except.error "404: Not Found" ∧
    generateWikiPage c9fetchFail c9svc "o" "r" [] ["src/a.ts"] =
      Except.ok ⟨"Title", "Body", [], []⟩ := by
  refine ⟨by decide, rfl, rfl⟩

/-- A fetch model that succeeds on one path and fails on the other. -/
def c9fetchW : String → Except String String :=
  fun f => if f = "src/main.ts" then Except.ok "line1\nline2" else Except.error "404"

/-- A reasoning-service model producing one citation with a bogus URL. -/
def c9svcW : List GatheredFile → Except String WikiContent :=
  fun _ => Except.ok ⟨"T", "B", [⟨"t", "src/main.ts", 1, 2, "bogus", "ctx"⟩], []⟩

/-- Witness for C9 at a concrete input: one file fetch fails, the other
succeeds, and a page is still produced with the citation URL locally
resolved. -/
theorem wiki_page_generation_fetch_isolation_witness :
    generateWikiPage c9fetchW c9svcW "o" "r" ["src/main.ts", "src/gone.ts"] [] =
      Except.ok ⟨"T", "B",
        resolveCitationUrls "o" "r" [⟨"t", "src/main.ts", 1, 2, "bogus", "ctx"⟩], []⟩ :=
  wiki_page_generation_fetch_isolation.2.1 c9fetchW c9svcW "o" "r"
    ["src/main.ts", "src/gone.ts"] [] ⟨"T", "B", [⟨"t", "src/main.ts", 1, 2, "bogus", "ctx"⟩], []⟩ rfl

/-! ### C10: startAnalysis repository reuse and job insertion -/

/-- `find?` skips a prefix in which nothing matches. -/
theorem find?_append_none {α : Type} (p : α → Bool) (l₁ l₂ : List α)
    (h : l₁.find? p = none) : (l₁ ++ l₂).find? p = l₂.find? p := by
  induction l₁ with
  | nil => rfl
  | cons a t ih =>
    cases hpa : p a with
    | true => simp [List.find?_cons, hpa] at h
    | false =>
      simp only [List.find?_cons, hpa] at h
      simp only [List.cons_append, List.find?_cons, hpa]
      exact ih h

/-- C10 (amended).  A submission whose URL matches a stored repository row
reuses that row's id, inserts no repository row, and inserts exactly one new
pending analysis job.  A submission matching no stored row inserts one
repository row — carrying the METADATA url, not the submitted one — plus one
pending job, provided the metadata url collides with no stored row.
Consequently, a repeated submission of the same URL reuses the row and adds
one more pending job PROVIDED the stored metadata url equals the submitted
url; when the two differ the second submission instead hits the unique-URL
insert violation (see the counterexample). -/
theorem startAnalysis_reuse_and_job_insert :
    (∀ url meta fr fj repos jobs r0,
      repos.find? (fun r => r.url == url) = some r0 →
      startAnalysis url meta fr fj repos jobs =
        Except.ok (fj, r0.id, repos, jobs ++ [⟨fj, r0.id, JStatus.pending, "0%"⟩])) ∧
    (∀ url meta fr fj repos jobs,
      (∀ r ∈ repos, r.url ≠ url) → (∀ r ∈ repos, r.url ≠ meta.url) →
      startAnalysis url meta fr fj repos jobs =
        Except.ok (fj, fr,
          repos ++ [⟨fr, meta.url, meta.owner, meta.name, meta.description,
            meta.language, toString meta.stars⟩],
          jobs ++ [⟨fj, fr, JStatus.pending, "0%"⟩])) ∧
    (∀ url meta fr fj fr2 fj2 repos jobs,
      meta.url = url → (∀ r ∈ repos, r.url ≠ url) →
      startAnalysis url meta fr2 fj2
          (repos ++ [⟨fr, meta.url, meta.owner, meta.name, meta.description,
            meta.language, toString meta.stars⟩])
          (jobs ++ [⟨fj, fr, JStatus.pending, "0%"⟩]) =
        Except.ok (fj2, fr,
          repos ++ [⟨fr, meta.url, meta.owner, meta.name, meta.description,
            meta.language, toString meta.stars⟩],
          (jobs ++ [⟨fj, fr, JStatus.pending, "0%"⟩]) ++
            [⟨fj2, fr, JStatus.pending, "0%"⟩])) := by
  have hnone : ∀ (url : String) (repos : List RepoRow), (∀ r ∈ repos, r.url ≠ url) →
      repos.find? (fun r => r.url == url) = none := by
    intro url repos h
    rw [List.find?_eq_none]
    intro r hr
    simp only [beq_iff_eq]
    exact h r hr
  have hsome : ∀ url meta fr fj (repos : List RepoRow) (jobs : List JobRow) r0,
      repos.find? (fun r => r.url == url) = some r0 →
      startAnalysis url meta fr fj repos jobs =
        Except.ok (fj, r0.id, repos, jobs ++ [⟨fj, r0.id, JStatus.pending, "0%"⟩]) := by
    intro url meta fr fj repos jobs r0 h
    simp only [startAnalysis, h]
  refine ⟨hsome, ?_, ?_⟩
  · intro url meta fr fj repos jobs h1 h2
    have hany : repos.any (fun r => r.url == meta.url) = false := by
      simp only [List.any_eq_false]
      intro r hr
      simp only [beq_iff_eq]
      exact h2 r hr
    simp only [startAnalysis, hnone url repos h1, hany, Bool.false_eq_true, if_false]
  · intro url meta fr fj fr2 fj2 repos jobs hmu h1
    set row : RepoRow := ⟨fr, meta.url, meta.owner, meta.name, meta.description,
      meta.language, toString meta.stars⟩ with hrow
    have hfind : (repos ++ [row]).find? (fun r => r.url == url) = some row := by
      rw [find?_append_none _ _ _ (hnone url repos h1)]
      simp [List.find?_cons, hrow, hmu]
    exact hsome url meta fr2 fj2 (repos ++ [row]) _ row hfind

/-- Metadata whose canonical url lacks the submitted URL's trailing slash,
as GitHub's `html_url` does. -/
def c10meta : RepoMetadata := ⟨"https://github.com/o/r", "o", "r", none, none, 5⟩

/-- C10, counterexample to the claim as stated: two submissions of the same
(validator-accepted) URL `https://github.com/o/r/`.  The first stores the
canonical metadata url without the trailing slash; the second finds no row
with the submitted URL, re-inserts, hits the unique-url constraint and
fails — so repeated submissions of the same URL do NOT always yield one
repository row and one job per submission. -/
theorem startAnalysis_url_mismatch_counterexample :
    startAnalysis "https://github.com/o/r/" c10meta 1 2 [] [] =
      Except.ok (2, 1, [⟨1, "https://github.com/o/r", "o", "r", none, none, "5"⟩],
        [⟨2, 1, JStatus.pending, "0%"⟩]) ∧
    startAnalysis "https://github.com/o/r/" c10meta 3 4
        [⟨1, "https://github.com/o/r", "o", "r", none, none, "5"⟩]
        [⟨2, 1, JStatus.pending, "0%"⟩] =
      Except.error "Failed to start analysis" := by
  exact ⟨rfl, rfl⟩

/-- Metadata whose canonical url equals the submitted URL. -/
def c10metaW : RepoMetadata := ⟨"https://github.com/a/b", "a", "b", some "d", none, 7⟩

/-- Witness for C10 at a concrete input: with matching canonical url, the
second submission reuses the repository row and appends one pending job. -/
theorem startAnalysis_reuse_and_job_insert_witness :
    startAnalysis "https://github.com/a/b" c10metaW 30 40
        ([] ++ [⟨10, "https://github.com/a/b", "a", "b", some "d", none, "7"⟩])
        ([] ++ [⟨20, 10, JStatus.pending, "0%"⟩]) =
      Except.ok (40, 10,
        [] ++ [⟨10, "https://github.com/a/b", "a", "b", some "d", none, "7"⟩],
        ([] ++ [⟨20, 10, JStatus.pending, "0%"⟩]) ++ [⟨40, 10, JStatus.pending, "0%"⟩]) :=
  startAnalysis_reuse_and_job_insert.2.2 "https://github.com/a/b" c10metaW 10 20 30 40 [] []
    rfl (by simp)

/-! ### C7: behaviour on an unparseable classification response -/

/-- C7 (amended).  The two analyzer variants implement different policies.
The schema-validating variant re-raises a validation failure as a
recoverable `AI analysis failed` error and never reaches a zero-subsystem
result.  The text-parsing variant never raises on unparseable text: when no
subsystem can be parsed it returns the fallback — exactly one generic
placeholder subsystem — and in no case does it return an analysis with zero
subsystems. -/
theorem classification_parse_failure_policy :
    (∀ e, analyzeRepositoryZod (Except.error e) =
      Except.error ("AI analysis failed: " ++ e)) ∧
    (∀ a, analyzeRepositoryZod (Except.ok a) = Except.ok a) ∧
    (∀ resp files, (parseAnalysisResponse resp files).subsystems ≠ []) ∧
    (∀ resp files, (parsedSubsystems resp files).subs = [] →
      (parseAnalysisResponse resp files).subsystems = createFallbackSubsystems) ∧
    createFallbackSubsystems.length = 1 := by
  refine ⟨fun e => rfl, fun a => rfl, ?_, ?_, rfl⟩
  · intro resp files
    unfold parseAnalysisResponse
    by_cases h : (parsedSubsystems resp files).subs = []
    · simp [h]
      decide
    · simp only [if_neg h]
      exact h
  · intro resp files h
    unfold parseAnalysisResponse
    simp [h]

/-- C7, counterexample to the claim as stated: on a classification response
that cannot be parsed at all, the text-parsing analyzer does NOT raise a
recoverable error — it returns the one-placeholder fallback, and does so
silently (no warning is recorded: the warnings list is empty). -/
theorem classification_parse_failure_counterexample :
    analyzeRepositoryText "no structure at all" [] =
      Except.ok ⟨"Repository analysis completed", createFallbackSubsystems, []⟩ := rfl

/-- Witness for C7 at a concrete unparseable response. -/
theorem classification_parse_failure_policy_witness :
    (parseAnalysisResponse "gibberish with no headers" ["src/a.ts"]).subsystems =
      createFallbackSubsystems :=
  classification_parse_failure_policy.2.2.2.1 "gibberish with no headers" ["src/a.ts"]
    (by decide)

/-! ### C4: hallucinated-path filtering in the analyzer -/

/-- A subsystem whose file and entry-point lists only name paths from the
supplied repository file list. -/
def SubOK (valid : List String) (s : SubsystemAnalysis) : Prop :=
  (∀ f ∈ s.files, f ∈ valid) ∧ (∀ f ∈ s.entryPoints, f ∈ valid)

/-- `parseItemAction` in file mode, with the option match reduced. -/
theorem parseItemAction_file_eq (valid : List String) (i : String) :
    parseItemAction (some valid) i =
      (if strContains i " " && !strContains i "/" then ItemAction.drop
       else if strContains i "(" || strContains i ")" then ItemAction.drop
       else if strContains i "each" || strContains i "specific" then ItemAction.drop
       else if strContains i "subdirectory" || strContains i "directory" then ItemAction.drop
       else if 100 < strLen i then ItemAction.drop
       else if strContains i "e.g." || strContains i "such as" then ItemAction.drop
       else if valid.contains i then ItemAction.keep
       else if strContains i "/" || strContains i "." then ItemAction.warnDrop
       else ItemAction.drop) := rfl

/-- An item the `parseList` filter keeps in file mode is a member of the
supplied file list: the only `keep` branch is the membership test. -/
theorem parseItemAction_keep_mem (valid : List String) (i : String)
    (h : parseItemAction (some valid) i = ItemAction.keep) : i ∈ valid := by
  rw [parseItemAction_file_eq] at h
  split_ifs at h with h1 h2 h3 h4 h5 h6 h7 h8
  all_goals first
    | exact ItemAction.noConfusion h
    | simpa using h7

/-- An item warned about is absent from the file list and looks like a file
path (it contains a slash or a dot). -/
theorem parseItemAction_warnDrop_spec (valid : List String) (i : String)
    (h : parseItemAction (some valid) i = ItemAction.warnDrop) :
    i ∉ valid ∧ (strContains i "/" || strContains i ".") = true := by
  rw [parseItemAction_file_eq] at h
  split_ifs at h with h1 h2 h3 h4 h5 h6 h7 h8
  all_goals first
    | exact ItemAction.noConfusion h
    | exact ⟨by simpa using h7, h8⟩

/-- Every item `parseList` keeps in file mode is in the file list. -/
theorem parseList_kept_subset (str : String) (valid : List String) (i : String)
    (h : i ∈ (parseList str (some valid)).1) : i ∈ valid := by
  unfold parseList at h
  split_ifs at h with hg
  · cases h
  · have h2 := (List.mem_filter.mp h).2
    exact parseItemAction_keep_mem valid i (by simpa using h2)

/-- `pushCur` preserves the file-list invariant on the finished subsystems
and the subsystem under construction. -/
theorem pushCur_ok (valid : List String) (st : ParseState)
    (h1 : ∀ s ∈ st.subs, SubOK valid s) (h2 : ∀ cs, st.cur = some cs → SubOK valid cs) :
    (∀ s ∈ (pushCur st).subs, SubOK valid s) ∧
      (∀ cs, (pushCur st).cur = some cs → SubOK valid cs) := by
  rcases hcur : st.cur with _ | cs
  · simp only [pushCur, hcur]
    exact ⟨h1, fun cs' hcs' => by cases hcs'⟩
  · simp only [pushCur, hcur]
    split_ifs with hname
    · refine ⟨?_, fun cs' hcs' => by cases hcs'⟩
      intro s hs
      rcases List.mem_append.mp hs with hmem | hmem
      · exact h1 s hmem
      · rcases List.mem_singleton.mp hmem with rfl
        exact h2 _ hcur
    · exact ⟨h1, fun cs' hcs' => by cases hcs'⟩

/-- `processLine` preserves the file-list invariant: the only lines that set
file or entry-point lists run them through `parseList` with the repository
file list. -/
theorem processLine_ok (valid : List String) (st : ParseState) (line : String)
    (h1 : ∀ s ∈ st.subs, SubOK valid s) (h2 : ∀ cs, st.cur = some cs → SubOK valid cs) :
    (∀ s ∈ (processLine valid st line).subs, SubOK valid s) ∧
      (∀ cs, (processLine valid st line).cur = some cs → SubOK valid cs) := by
  have hfresh : ∀ n : String, SubOK valid
      { name := n, description := none, stype := none, files := [],
        entryPoints := [], dependencies := [], complexity := none } :=
    fun n => ⟨fun f hf => absurd hf (List.not_mem_nil f),
      fun f hf => absurd hf (List.not_mem_nil f)⟩
  have hpush := pushCur_ok valid st h1 h2
  obtain ⟨sm, subs, cur, warns⟩ := st
  rcases cur with _ | cs
  · simp only [processLine]
    by_cases hc1 : strTrim line = ""
    · rw [if_pos hc1]
      exact ⟨h1, h2⟩
    rw [if_neg hc1]
    by_cases hc2 : strStarts (strTrim line) "SUMMARY:" = true
    · rw [if_pos hc2]
      exact ⟨h1, h2⟩
    rw [if_neg hc2]
    by_cases hc3 : strStarts (strTrim line) "SUBSYSTEM:" = true
    · rw [if_pos hc3]
      refine ⟨hpush.1, ?_⟩
      intro cs' hcs'
      cases hcs'
      exact hfresh _
    rw [if_neg hc3]
    exact ⟨h1, h2⟩
  · have hcs := h2 cs rfl
    simp only [processLine]
    by_cases hc1 : strTrim line = ""
    · rw [if_pos hc1]
      exact ⟨h1, h2⟩
    rw [if_neg hc1]
    by_cases hc2 : strStarts (strTrim line) "SUMMARY:" = true
    · rw [if_pos hc2]
      exact ⟨h1, h2⟩
    rw [if_neg hc2]
    by_cases hc3 : strStarts (strTrim line) "SUBSYSTEM:" = true
    · rw [if_pos hc3]
      refine ⟨hpush.1, ?_⟩
      intro cs' hcs'
      cases hcs'
      exact hfresh _
    rw [if_neg hc3]
    by_cases ht : strStarts (strTrim line) "TYPE:" = true
    · rw [if_pos ht]
      refine ⟨h1, ?_⟩
      intro cs' hcs'
      cases hcs'
      exact ⟨hcs.1, hcs.2⟩
    rw [if_neg ht]
    by_cases hd : strStarts (strTrim line) "DESCRIPTION:" = true
    · rw [if_pos hd]
      refine ⟨h1, ?_⟩
      intro cs' hcs'
      cases hcs'
      exact ⟨hcs.1, hcs.2⟩
    rw [if_neg hd]
    by_cases hfl : strStarts (strTrim line) "FILES:" = true
    · rw [if_pos hfl]
      refine ⟨h1, ?_⟩
      intro cs' hcs'
      cases hcs'
      exact ⟨fun f hfm => parseList_kept_subset _ valid f hfm, hcs.2⟩
    rw [if_neg hfl]
    by_cases he : strStarts (strTrim line) "ENTRY_POINTS:" = true
    · rw [if_pos he]
      refine ⟨h1, ?_⟩
      intro cs' hcs'
      cases hcs'
      exact ⟨hcs.1, fun f hfm => parseList_kept_subset _ valid f hfm⟩
    rw [if_neg he]
    by_cases hdep : strStarts (strTrim line) "DEPENDENCIES:" = true
    · rw [if_pos hdep]
      refine ⟨h1, ?_⟩
      intro cs' hcs'
      cases hcs'
      exact ⟨hcs.1, hcs.2⟩
    rw [if_neg hdep]
    by_cases hcx : strStarts (strTrim line) "COMPLEXITY:" = true
    · rw [if_pos hcx]
      refine ⟨h1, ?_⟩
      intro cs' hcs'
      cases hcs'
      exact ⟨hcs.1, hcs.2⟩
    rw [if_neg hcx]
    exact ⟨h1, h2⟩

/-- The invariant holds after folding `processLine` over all lines. -/
theorem foldl_processLine_ok (valid : List String) (lines : List String) (st : ParseState)
    (h1 : ∀ s ∈ st.subs, SubOK valid s) (h2 : ∀ cs, st.cur = some cs → SubOK valid cs) :
    (∀ s ∈ (lines.foldl (processLine valid) st).subs, SubOK valid s) ∧
      (∀ cs, (lines.foldl (processLine valid) st).cur = some cs → SubOK valid cs) := by
  induction lines generalizing st with
  | nil => exact ⟨h1, h2⟩
  | cons a t ih =>
    have hstep := processLine_ok valid st a h1 h2
    exact ih (processLine valid st a) hstep.1 hstep.2

/-- C4.  Every subsystem returned by the (text-parsing) analyzer has file
and entry-point lists whose entries are paths present in the supplied
repository file list; a file-path-looking item absent from that list is
dropped from the kept list and recorded as a warning; dependency items are
parsed without the file list and kept (when they look like bare library
names) regardless of any file list. -/
theorem analyzer_path_validation :
    (∀ resp valid, ∀ sub ∈ (parseAnalysisResponse resp valid).subsystems,
      (∀ f ∈ sub.files, f ∈ valid) ∧ (∀ f ∈ sub.entryPoints, f ∈ valid)) ∧
    (∀ str valid i, i ∈ (parseList str (some valid)).1 → i ∈ valid) ∧
    (∀ str valid i, i ∈ parseListPre str →
      parseItemAction (some valid) i = ItemAction.warnDrop →
      str ≠ "" ∧ str ≠ "none" ∧ str ≠ "n/a" →
      i ∈ (parseList str (some valid)).2 ∧ i ∉ (parseList str (some valid)).1) ∧
    (∀ valid i, parseItemAction (some valid) i = ItemAction.warnDrop →
      i ∉ valid ∧ (strContains i "/" || strContains i ".") = true) ∧
    ((parseList "express, nonexistent.lib" none).1 = ["express", "nonexistent.lib"] ∧
      (parseList "express, nonexistent.lib" none).2 = []) := by
  refine ⟨?_, parseList_kept_subset, ?_, parseItemAction_warnDrop_spec, by decide, by decide⟩
  · intro resp valid sub hsub
    have hinv := foldl_processLine_ok valid (strSplitBy resp (fun c => c = '\n'))
      { summary := "", subs := [], cur := none, warnings := [] }
      (fun s hs => by cases hs) (fun cs hcs => by cases hcs)
    have hpush := pushCur_ok valid _ hinv.1 hinv.2
    simp only [parseAnalysisResponse] at hsub
    by_cases hempty : (parsedSubsystems resp valid).subs = []
    · rw [if_pos hempty] at hsub
      simp only [createFallbackSubsystems, List.mem_singleton] at hsub
      subst hsub
      exact ⟨fun f hf => absurd hf (List.not_mem_nil f),
        fun f hf => absurd hf (List.not_mem_nil f)⟩
    · rw [if_neg hempty] at hsub
      exact hpush.1 sub hsub
  · intro str valid i hpre hact hne
    have hg : ¬ ((str = "" || str = "none" || str = "n/a") = true) := by
      simp [hne.1, hne.2.1, hne.2.2]
    unfold parseList
    rw [if_neg hg]
    refine ⟨List.mem_filter.mpr ⟨hpre, by simp [hact]⟩, ?_⟩
    intro hmem
    have h2 := (List.mem_filter.mp hmem).2
    rw [hact] at h2
    simp at h2

/-- Witness for C4 at a concrete response: the kept path is in the file
list; the hallucinated path is warned about and dropped. -/
theorem analyzer_path_validation_witness :
    "src/cli.py" ∈ ["src/cli.py", "src/api.py"] ∧
    ("src/fake.py" ∈ (parseList "src/cli.py, src/fake.py" (some ["src/cli.py", "src/api.py"])).2 ∧
      "src/fake.py" ∉ (parseList "src/cli.py, src/fake.py" (some ["src/cli.py", "src/api.py"])).1) :=
  ⟨analyzer_path_validation.2.1 "src/cli.py, src/fake.py" ["src/cli.py", "src/api.py"]
      "src/cli.py" (by decide),
    analyzer_path_validation.2.2.1 "src/cli.py, src/fake.py" ["src/cli.py", "src/api.py"]
      "src/fake.py" (by decide) (by decide) ⟨by decide, by decide, by decide⟩⟩

/-! ### C2: per-subsystem failure isolation in wiki generation -/

/-- The per-subsystem loop records one result entry per subsystem, in
order, successes and failures alike. -/
theorem pagesLoop_results (force : Bool) (gen : SubRow → Except String WikiContent)
    (now : Nat) : ∀ (subs : List SubRow) (db : List PageRow) (res : List GenResultEntry)
    (next : Nat),
    (generatePagesLoop force gen now db res next subs).2.1 =
      res ++ subs.map (resultEntryOf gen) := by
  intro subs
  induction subs with
  | nil =>
    intro db res next
    simp [generatePagesLoop]
  | cons sub rest ih =>
    intro db res next
    simp only [generatePagesLoop]
    cases hg : gen sub with
    | error m =>
      rw [ih]
      simp [resultEntryOf, hg]
    | ok c =>
      cases force with
      | false =>
        simp only [Bool.false_eq_true, if_false]
        rw [ih]
        simp [resultEntryOf, hg]
      | true =>
        simp only [if_true]
        cases hf : db.find? (fun p => p.subsystemId == sub.id) with
        | none =>
          rw [ih]
          simp [resultEntryOf, hg]
        | some p =>
          rw [ih]
          simp [resultEntryOf, hg]

/-- In non-force mode the loop only appends pages, so every page present
before a step is present after it. -/
theorem pagesLoop_db_mono (gen : SubRow → Except String WikiContent) (now : Nat) :
    ∀ (subs : List SubRow) (db : List PageRow) (res : List GenResultEntry) (next : Nat)
    (p : PageRow), p ∈ db → p ∈ (generatePagesLoop false gen now db res next subs).1 := by
  intro subs
  induction subs with
  | nil =>
    intro db res next p hp
    simpa [generatePagesLoop] using hp
  | cons sub rest ih =>
    intro db res next p hp
    simp only [generatePagesLoop]
    cases hg : gen sub with
    | error m => exact ih db _ next p hp
    | ok c =>
      simp only [Bool.false_eq_true, if_false]
      exact ih _ _ _ p (List.mem_append_left _ hp)

/-- In non-force mode, every subsystem whose generation succeeds ends up
with a persisted page, wherever it sits in the processing order. -/
theorem pagesLoop_page_exists (gen : SubRow → Except String WikiContent) (now : Nat) :
    ∀ (subs : List SubRow) (db : List PageRow) (res : List GenResultEntry) (next : Nat)
    (s : SubRow), s ∈ subs → genOk gen s = true →
    ∃ p ∈ (generatePagesLoop false gen now db res next subs).1, p.subsystemId = s.id := by
  intro subs
  induction subs with
  | nil =>
    intro db res next s hs
    cases hs
  | cons sub rest ih =>
    intro db res next s hs hok
    rcases List.mem_cons.mp hs with rfl | hmem
    · cases hg : gen s with
      | error m =>
        rw [genOk, hg] at hok
        cases hok
      | ok c =>
        simp only [generatePagesLoop, hg, Bool.false_eq_true, if_false]
        refine ⟨mkPageRow next s.id c now, ?_, rfl⟩
        exact pagesLoop_db_mono gen now rest _ _ _ _
          (List.mem_append_right _ (List.mem_singleton.mpr rfl))
    · simp only [generatePagesLoop]
      cases hg : gen sub with
      | error m => exact ih db _ next s hmem hok
      | ok c =>
        simp only [Bool.false_eq_true, if_false]
        exact ih _ _ _ s hmem hok

/-- Successful result entries correspond exactly to subsystems whose
generation succeeded. -/
theorem resultEntry_success_count (gen : SubRow → Except String WikiContent) :
    ∀ subs : List SubRow,
    ((subs.map (resultEntryOf gen)).filter (fun e => e.success)).length =
      (subs.filter (fun s => genOk gen s)).length := by
  intro subs
  induction subs with
  | nil => rfl
  | cons sub rest ih =>
    cases hg : gen sub with
    | error m => simpa [resultEntryOf, genOk, hg] using ih
    | ok c => simpa [resultEntryOf, genOk, hg] using ih

/-- Failed result entries count exactly the subsystems whose generation
failed. -/
theorem resultEntry_failure_count (gen : SubRow → Except String WikiContent) :
    ∀ subs : List SubRow,
    ((subs.map (resultEntryOf gen)).filter (fun e => !e.success)).length =
      subs.length - (subs.filter (fun s => genOk gen s)).length := by
  intro subs
  induction subs with
  | nil => rfl
  | cons sub rest ih =>
    have hle := List.length_filter_le (fun s => genOk gen s) rest
    cases hg : gen sub with
    | error m =>
      have hok : genOk gen sub = false := by simp [genOk, hg]
      have hre : resultEntryOf gen sub = ⟨sub.name, false, some m⟩ := by
        simp [resultEntryOf, hg]
      simp only [List.map_cons, List.filter_cons, hre, hok, Bool.not_false, if_true,
        Bool.false_eq_true, if_false, List.length_cons]
      omega
    | ok c =>
      have hok : genOk gen sub = true := by simp [genOk, hg]
      have hre : resultEntryOf gen sub = ⟨sub.name, true, none⟩ := by
        simp [resultEntryOf, hg]
      simp only [List.map_cons, List.filter_cons, hre, hok, Bool.not_true, if_true,
        Bool.false_eq_true, if_false, List.length_cons]
      omega

/-- C2.  When wiki pages are generated sequentially (first-time generation:
no pages exist yet), a thrown failure in one subsystem's generation leaves
every other subsystem's persisted page intact, the run still returns
`success: true` rather than failing, and the aggregate reports the exact
success and failure counts. -/
theorem wiki_generation_failure_isolation (s0 : SubRow) (rest : List SubRow)
    (gen : SubRow → Except String WikiContent) (next0 now : Nat) :
    generateWikiRun false (s0 :: rest) gen [] next0 now =
      Except.ok ((generatePagesLoop false gen now [] [] next0 (s0 :: rest)).1,
        WikiRunOutcome.completed ⟨true, (s0 :: rest).length,
          ((s0 :: rest).filter (fun s => genOk gen s)).length,
          (s0 :: rest).map (resultEntryOf gen)⟩) ∧
    (∀ s ∈ s0 :: rest, genOk gen s = true →
      ∃ p ∈ (generatePagesLoop false gen now [] [] next0 (s0 :: rest)).1,
        p.subsystemId = s.id) ∧
    ((((s0 :: rest).map (resultEntryOf gen)).filter (fun e => !e.success)).length =
      (s0 :: rest).length - ((s0 :: rest).filter (fun s => genOk gen s)).length) := by
  refine ⟨?_, fun s hs hok => pagesLoop_page_exists gen now _ [] [] next0 s hs hok,
    resultEntry_failure_count gen _⟩
  simp only [generateWikiRun, List.any_nil, Bool.and_false, Bool.false_eq_true, if_false]
  rw [pagesLoop_results]
  rw [List.nil_append, resultEntry_success_count]

/-- Three subsystems for the witness run. -/
def c2subA : SubRow := ⟨1, "r", "A", none, "feature", [], [], [], none, 0⟩

/-- Second witness subsystem (its generation will fail). -/
def c2subB : SubRow := ⟨2, "r", "B", none, "api", [], [], [], none, 0⟩

/-- Third witness subsystem. -/
def c2subC : SubRow := ⟨3, "r", "C", none, "cli", [], [], [], none, 0⟩

/-- A generator that throws exactly on the middle subsystem. -/
def c2gen : SubRow → Except String WikiContent :=
  fun sub => if sub.id = 2 then Except.error "boom" else Except.ok ⟨"T", "B", [], []⟩

/-- Witness for C2: of three subsystems the middle one fails; pages are
persisted for the first and third, the run reports success with 2 successes
out of 3, and the failure entry carries the error. -/
theorem wiki_generation_failure_isolation_witness :
    generateWikiRun false [c2subA, c2subB, c2subC] c2gen [] 10 0 =
      Except.ok ([⟨10, 1, "T", "B", [], [], 0⟩, ⟨11, 3, "T", "B", [], [], 0⟩],
        WikiRunOutcome.completed ⟨true, 3, 2,
          [⟨"A", true, none⟩, ⟨"B", false, some "boom"⟩, ⟨"C", true, none⟩]⟩) :=
  (wiki_generation_failure_isolation c2subA [c2subB, c2subC] c2gen 10 0).1.symm.trans rfl |>.symm

/-! ### C8: wiki skip check and force upsert -/

/-- The forced-regeneration page update does not change how many pages any
subsystem has: it only overwrites fields of an existing row. -/
theorem countPages_update (db : List PageRow) (pid : Nat) (c : WikiContent) (now sid : Nat) :
    countPages (updatePageById db pid c now) sid = countPages db sid := by
  unfold countPages updatePageById
  induction db with
  | nil => rfl
  | cons p t ih =>
    simp only [List.map_cons, List.filter_cons]
    by_cases hid : p.id = pid
    · by_cases hs : (p.subsystemId == sid) = true
      · simp [hid, hs, ih]
      · simp [hid, hs, ih]
    · by_cases hs : (p.subsystemId == sid) = true
      · simp [hid, hs, ih]
      · simp [hid, hs, ih]

/-- Appending one page adds one to its subsystem's page count only. -/
theorem countPages_append_one (db : List PageRow) (x : PageRow) (sid : Nat) :
    countPages (db ++ [x]) sid =
      countPages db sid + (if (x.subsystemId == sid) = true then 1 else 0) := by
  unfold countPages
  rw [List.filter_append, List.length_append]
  by_cases hx : (x.subsystemId == sid) = true
  · simp [hx]
  · simp [hx]

/-- The update keeps every row's id and subsystem. -/
theorem updatePageById_keeps (db : List PageRow) (t : Nat) (c : WikiContent) (now : Nat)
    (q : PageRow) (hq : q ∈ db) :
    ∃ q' ∈ updatePageById db t c now, q'.id = q.id ∧ q'.subsystemId = q.subsystemId := by
  by_cases hid : q.id = t
  · let q2 : PageRow :=
      { q with title := c.title, content := c.content, citations := c.citations,
               tableOfContents := c.tableOfContents, updatedAt := now }
    refine ⟨q2, ?_, rfl, rfl⟩
    unfold updatePageById
    exact List.mem_map.mpr ⟨q, hq, by rw [if_pos hid]⟩
  · refine ⟨q, ?_, rfl, rfl⟩
    unfold updatePageById
    exact List.mem_map.mpr ⟨q, hq, by simp [hid]⟩

/-- Whatever the loop does, every page present at the start still has a row
with the same id and subsystem at the end: updates overwrite fields in
place, inserts only add rows. -/
theorem pagesLoop_keeps_page (force : Bool) (gen : SubRow → Except String WikiContent)
    (now : Nat) : ∀ (subs : List SubRow) (db : List PageRow) res next (q : PageRow),
    q ∈ db →
    ∃ q' ∈ (generatePagesLoop force gen now db res next subs).1,
      q'.id = q.id ∧ q'.subsystemId = q.subsystemId := by
  intro subs
  induction subs with
  | nil =>
    intro db res next q hq
    exact ⟨q, hq, rfl, rfl⟩
  | cons sub rest ih =>
    intro db res next q hq
    simp only [generatePagesLoop]
    cases hg : gen sub with
    | error m => exact ih db _ next q hq
    | ok c =>
      cases force with
      | false =>
        simp only [Bool.false_eq_true, if_false]
        exact ih _ _ _ q (List.mem_append_left _ hq)
      | true =>
        simp only [if_true]
        cases hf : db.find? (fun p => p.subsystemId == sub.id) with
        | none => exact ih _ _ _ q (List.mem_append_left _ hq)
        | some p =>
          obtain ⟨q', hq', h1, h2⟩ := updatePageById_keeps db p.id c now q hq
          obtain ⟨q'', hq'', h1', h2'⟩ := ih _ _ next q' hq'
          exact ⟨q'', hq'', h1'.trans h1, h2'.trans h2⟩

/-- Subsystems other than a given one never change its page count. -/
theorem pagesLoop_count_other (force : Bool) (gen : SubRow → Except String WikiContent)
    (now : Nat) : ∀ (subs : List SubRow) (db : List PageRow) res next (sid : Nat),
    (∀ s ∈ subs, s.id ≠ sid) →
    countPages (generatePagesLoop force gen now db res next subs).1 sid =
      countPages db sid := by
  intro subs
  induction subs with
  | nil =>
    intro db res next sid _
    rfl
  | cons sub rest ih =>
    intro db res next sid h
    have hsub : sub.id ≠ sid := h sub (List.mem_cons_self sub rest)
    have hrest : ∀ s ∈ rest, s.id ≠ sid := fun s hs => h s (List.mem_cons_of_mem sub hs)
    simp only [generatePagesLoop]
    cases hg : gen sub with
    | error m => exact ih db _ next sid hrest
    | ok c =>
      have hbeq : ((mkPageRow next sub.id c now).subsystemId == sid) = false := by
        simp [mkPageRow, hsub]
      cases force with
      | false =>
        simp only [Bool.false_eq_true, if_false]
        rw [ih _ _ _ sid hrest, countPages_append_one, hbeq]
        simp
      | true =>
        simp only [if_true]
        cases hf : db.find? (fun p => p.subsystemId == sub.id) with
        | none =>
          rw [ih _ _ _ sid hrest, countPages_append_one, hbeq]
          simp
        | some p =>
          rw [ih _ _ _ sid hrest, countPages_update]

/-- Force mode gives each successfully generated subsystem exactly one page
when it had none, and leaves its page count unchanged otherwise (the
existing page is updated in place). -/
theorem pagesLoop_force_count (gen : SubRow → Except String WikiContent) (now : Nat) :
    ∀ (subs : List SubRow) (db : List PageRow) res next (s : SubRow),
    s ∈ subs → ((subs.map (fun r => r.id)).Nodup) →
    countPages (generatePagesLoop true gen now db res next subs).1 s.id =
      if genOk gen s = true ∧ countPages db s.id = 0 then 1
      else countPages db s.id := by
  intro subs
  induction subs with
  | nil =>
    intro db res next s hs
    cases hs
  | cons sub rest ih =>
    intro db res next s hs hnd
    have hnd' : (rest.map (fun r => r.id)).Nodup := (List.nodup_cons.mp hnd).2
    have hhead : sub.id ∉ rest.map (fun r => r.id) := (List.nodup_cons.mp hnd).1
    rcases List.mem_cons.mp hs with rfl | hmem
    · have hrest : ∀ s' ∈ rest, s'.id ≠ s.id := by
        intro s' hs' heq
        exact hhead (heq ▸ List.mem_map_of_mem (fun r => r.id) hs')
      cases hg : gen s with
      | error m =>
        have hok : genOk gen s = false := by simp [genOk, hg]
        simp only [generatePagesLoop, hg]
        rw [pagesLoop_count_other true gen now rest db _ next s.id hrest]
        simp [hok]
      | ok c =>
        have hok : genOk gen s = true := by simp [genOk, hg]
        simp only [generatePagesLoop, hg, if_true]
        cases hf : db.find? (fun p => p.subsystemId == s.id) with
        | some p =>
          have hcnt : countPages db s.id ≠ 0 := by
            have hp := List.mem_of_find?_eq_some hf
            have hpred := List.find?_some hf
            unfold countPages
            have hmemf : p ∈ db.filter (fun q => q.subsystemId == s.id) :=
              List.mem_filter.mpr ⟨hp, hpred⟩
            intro hzero
            rw [List.length_eq_zero] at hzero
            rw [hzero] at hmemf
            cases hmemf
          rw [pagesLoop_count_other true gen now rest _ _ next s.id hrest,
            countPages_update]
          simp [hok, hcnt]
        | none =>
          have hcnt : countPages db s.id = 0 := by
            unfold countPages
            rw [List.length_eq_zero, List.filter_eq_nil_iff]
            intro q hq
            simpa using List.find?_eq_none.mp hf q hq
          have hbeq : ((mkPageRow next s.id c now).subsystemId == s.id) = true := by
            simp [mkPageRow]
          rw [pagesLoop_count_other true gen now rest _ _ _ s.id hrest,
            countPages_append_one, hbeq]
          simp [hok, hcnt]
    · have hne : sub.id ≠ s.id := fun heq => hhead (heq ▸ List.mem_map_of_mem (fun r => r.id) hmem)
      cases hg : gen sub with
      | error m =>
        simp only [generatePagesLoop, hg]
        exact ih db _ next s hmem hnd'
      | ok c =>
        have hbeq : ((mkPageRow next sub.id c now).subsystemId == s.id) = false := by
          simp [mkPageRow, hne]
        simp only [generatePagesLoop, hg, if_true]
        cases hf : db.find? (fun p => p.subsystemId == sub.id) with
        | some p => rw [ih _ _ _ s hmem hnd', countPages_update]
        | none =>
          rw [ih _ _ _ s hmem hnd', countPages_append_one, hbeq]
          simp
 
/-- Non-force mode always inserts a fresh page for each successfully
generated subsystem, regardless of any pages it already has. -/
theorem pagesLoop_insert_count (gen : SubRow → Except String WikiContent) (now : Nat) :
    ∀ (subs : List SubRow) (db : List PageRow) res next (s : SubRow),
    s ∈ subs → ((subs.map (fun r => r.id)).Nodup) →
    countPages (generatePagesLoop false gen now db res next subs).1 s.id =
      countPages db s.id + (if genOk gen s = true then 1 else 0) := by
  intro subs
  induction subs with
  | nil =>
    intro db res next s hs
    cases hs
  | cons sub rest ih =>
    intro db res next s hs hnd
    have hnd' : (rest.map (fun r => r.id)).Nodup := (List.nodup_cons.mp hnd).2
    have hhead : sub.id ∉ rest.map (fun r => r.id) := (List.nodup_cons.mp hnd).1
    rcases List.mem_cons.mp hs with rfl | hmem
    · have hrest : ∀ s' ∈ rest, s'.id ≠ s.id := by
        intro s' hs' heq
        exact hhead (heq ▸ List.mem_map_of_mem (fun r => r.id) hs')
      cases hg : gen s with
      | error m =>
        have hok : genOk gen s = false := by simp [genOk, hg]
        simp only [generatePagesLoop, hg]
        rw [pagesLoop_count_other false gen now rest db _ next s.id hrest]
        simp [hok]
      | ok c =>
        have hok : genOk gen s = true := by simp [genOk, hg]
        have hbeq : ((mkPageRow next s.id c now).subsystemId == s.id) = true := by
          simp [mkPageRow]
        simp only [generatePagesLoop, hg, Bool.false_eq_true, if_false]
        rw [pagesLoop_count_other false gen now rest _ _ _ s.id hrest,
          countPages_append_one, hbeq]
        simp [hok]
    · have hne : sub.id ≠ s.id := fun heq => hhead (heq ▸ List.mem_map_of_mem (fun r => r.id) hmem)
      cases hg : gen sub with
      | error m =>
        simp only [generatePagesLoop, hg]
        exact ih db _ next s hmem hnd'
      | ok c =>
        have hbeq : ((mkPageRow next sub.id c now).subsystemId == s.id) = false := by
          simp [mkPageRow, hne]
        simp only [generatePagesLoop, hg, Bool.false_eq_true, if_false]
        rw [ih _ _ _ s hmem hnd', countPages_append_one, hbeq]
        simp

/-- C8 (amended).  Generation is skipped only when NOT forcing and a page
already exists for the FIRST subsystem in the list (other subsystems' pages
are not checked); forcing never skips; under force each subsystem with a
page keeps exactly its page count (the page is updated in place, same row
id), and each successfully generated subsystem without one gets exactly one
new page; without force, every successfully generated subsystem gets a
newly inserted page even if it already had one — so a subsystem CAN end up
with more than one page (see the counterexample). -/
theorem wiki_skip_and_force_upsert :
    (∀ (s0 : SubRow) (rest : List SubRow) (gen : SubRow → Except String WikiContent)
      (db0 : List PageRow) (next0 now : Nat),
      db0.any (fun p => p.subsystemId == s0.id) = true →
      generateWikiRun false (s0 :: rest) gen db0 next0 now =
        Except.ok (db0, WikiRunOutcome.skipped)) ∧
    (∀ (s0 : SubRow) (rest : List SubRow) (gen : SubRow → Except String WikiContent)
      (db0 : List PageRow) (next0 now : Nat),
      generateWikiRun true (s0 :: rest) gen db0 next0 now =
        Except.ok ((generatePagesLoop true gen now db0 [] next0 (s0 :: rest)).1,
          WikiRunOutcome.completed ⟨true, (s0 :: rest).length,
            (((s0 :: rest).map (resultEntryOf gen)).filter (fun e => e.success)).length,
            (s0 :: rest).map (resultEntryOf gen)⟩)) ∧
    (∀ (subs : List SubRow) (gen : SubRow → Except String WikiContent)
      (db0 : List PageRow) (next0 now : Nat) (s : SubRow),
      s ∈ subs → ((subs.map (fun r => r.id)).Nodup) →
      countPages (generatePagesLoop true gen now db0 [] next0 subs).1 s.id =
        if genOk gen s = true ∧ countPages db0 s.id = 0 then 1
        else countPages db0 s.id) ∧
    (∀ (subs : List SubRow) (gen : SubRow → Except String WikiContent)
      (db0 : List PageRow) (next0 now : Nat) (force : Bool) (q : PageRow), q ∈ db0 →
      ∃ q' ∈ (generatePagesLoop force gen now db0 [] next0 subs).1,
        q'.id = q.id ∧ q'.subsystemId = q.subsystemId) ∧
    (∀ (subs : List SubRow) (gen : SubRow → Except String WikiContent)
      (db0 : List PageRow) (next0 now : Nat) (s : SubRow),
      s ∈ subs → ((subs.map (fun r => r.id)).Nodup) →
      countPages (generatePagesLoop false gen now db0 [] next0 subs).1 s.id =
        countPages db0 s.id + (if genOk gen s = true then 1 else 0)) := by
  refine ⟨?_, ?_,
    fun subs gen db0 next0 now s hs hnd => pagesLoop_force_count gen now subs db0 [] next0 s hs hnd,
    fun subs gen db0 next0 now force q hq => pagesLoop_keeps_page force gen now subs db0 [] next0 q hq,
    fun subs gen db0 next0 now s hs hnd => pagesLoop_insert_count gen now subs db0 [] next0 s hs hnd⟩
  · intro s0 rest gen db0 next0 now h
    simp [generateWikiRun, h]
  · intro s0 rest gen db0 next0 now
    simp only [generateWikiRun, Bool.not_true, Bool.false_and, Bool.false_eq_true, if_false]
    rw [pagesLoop_results, List.nil_append]

/-- A generator that always succeeds, for the C8 runs. -/
def c8gen : SubRow → Except String WikiContent := fun _ => Except.ok ⟨"T", "B", [], []⟩

/-- First subsystem of the counterexample repository (no page yet). -/
def c8subA : SubRow := ⟨1, "r", "A", none, "feature", [], [], [], none, 0⟩

/-- Second subsystem of the counterexample repository (already has a page). -/
def c8subB : SubRow := ⟨2, "r", "B", none, "api", [], [], [], none, 0⟩

/-- The page subsystem B already has. -/
def c8page : PageRow := ⟨9, 2, "old", "old", [], [], 0⟩

/-- C8, counterexample to the claim as stated: a wiki page already exists
(for subsystem B) and force is NOT set, yet generation is not skipped —
only the first subsystem's pages are checked — and B ends up with TWO
pages, violating the claimed at-most-one-page guarantee. -/
theorem wiki_skip_counterexample :
    generateWikiRun false [c8subA, c8subB] c8gen [c8page] 10 0 =
      Except.ok ([c8page, ⟨10, 1, "T", "B", [], [], 0⟩, ⟨11, 2, "T", "B", [], [], 0⟩],
        WikiRunOutcome.completed ⟨true, 2, 2, [⟨"A", true, none⟩, ⟨"B", true, none⟩]⟩) ∧
    countPages [c8page, ⟨10, 1, "T", "B", [], [], 0⟩, ⟨11, 2, "T", "B", [], [], 0⟩] 2 = 2 := by
  exact ⟨rfl, rfl⟩

/-- Witness for C8 at a concrete input: under force, subsystem B (which
already has exactly one page) still has exactly one page afterwards. -/
theorem wiki_skip_and_force_upsert_witness :
    countPages (generatePagesLoop true c8gen 0 [c8page] [] 10 [c8subB]).1 2 = 1 :=
  ((wiki_skip_and_force_upsert.2.2.1 [c8subB] c8gen [c8page] 10 0 c8subB
    (List.mem_singleton.mpr rfl) (by decide)).trans (by decide))

/-! ### C3: merge-on-reanalysis of subsystems -/

/-- Once the name-map fold has found a row it never loses it. -/
theorem lookupFold_isSome (n : String) (l : List SubRow) :
    ∀ x : SubRow, ∃ y, l.foldl (fun acc r => if r.name = n then some r else acc) (some x) =
      some y := by
  induction l with
  | nil => exact fun x => ⟨x, rfl⟩
  | cons r t ih =>
    intro x
    simp only [List.foldl_cons]
    by_cases h : r.name = n
    · rw [if_pos h]
      exact ih r
    · rw [if_neg h]
      exact ih x

/-- If no row matches, the fold returns its accumulator unchanged. -/
theorem lookupFold_no_match (n : String) (l : List SubRow) (h : ∀ r ∈ l, r.name ≠ n) :
    ∀ acc, l.foldl (fun acc r => if r.name = n then some r else acc) acc = acc := by
  induction l with
  | nil => exact fun _ => rfl
  | cons r t ih =>
    intro acc
    simp only [List.foldl_cons]
    rw [if_neg (h r (List.mem_cons_self r t))]
    exact ih (fun r' hr' => h r' (List.mem_cons_of_mem r hr')) acc

/-- A row the fold returns either was the accumulator or is a matching
member of the list. -/
theorem lookupFold_some (n : String) (l : List SubRow) :
    ∀ (acc : Option SubRow) (e : SubRow),
    l.foldl (fun acc r => if r.name = n then some r else acc) acc = some e →
    acc = some e ∨ (e ∈ l ∧ e.name = n) := by
  induction l with
  | nil => exact fun acc e h => Or.inl h
  | cons r t ih =>
    intro acc e h
    simp only [List.foldl_cons] at h
    by_cases hr : r.name = n
    · rw [if_pos hr] at h
      rcases ih (some r) e h with heq | hmem
      · cases heq
        exact Or.inr ⟨List.mem_cons_self r t, hr⟩
      · exact Or.inr ⟨List.mem_cons_of_mem r hmem.1, hmem.2⟩
    · rw [if_neg hr] at h
      rcases ih acc e h with heq | hmem
      · exact Or.inl heq
      · exact Or.inr ⟨List.mem_cons_of_mem r hmem.1, hmem.2⟩

/-- A successful map lookup returns a member row carrying the looked-up
name. -/
theorem mapLookup_mem (snap : List SubRow) (n : String) (e : SubRow)
    (h : mapLookup snap n = some e) : e ∈ snap ∧ e.name = n := by
  rcases lookupFold_some n snap none e h with heq | hmem
  · cases heq
  · exact hmem

/-- The lookup fails exactly when no row carries the name. -/
theorem mapLookup_none_iff (snap : List SubRow) (n : String) :
    mapLookup snap n = none ↔ ∀ e ∈ snap, e.name ≠ n := by
  constructor
  · intro h e he heq
    induction snap with
    | nil => cases he
    | cons r t ih =>
      unfold mapLookup at h
      simp only [List.foldl_cons] at h
      by_cases hr : r.name = n
      · rw [if_pos hr] at h
        obtain ⟨y, hy⟩ := lookupFold_isSome n t r
        rw [hy] at h
        cases h
      · rw [if_neg hr] at h
        rcases List.mem_cons.mp he with rfl | hmem
        · exact hr heq
        · exact ih h hmem
  · intro h
    exact lookupFold_no_match n snap h none

/-- With no duplicate names in the snapshot, looking a member row's name up
returns exactly that row. -/
theorem mapLookup_self (snap : List SubRow) (e : SubRow)
    (hN : (snap.map (fun r => r.name)).Nodup) (he : e ∈ snap) :
    mapLookup snap e.name = some e := by
  induction snap with
  | nil => cases he
  | cons r t ih =>
    rw [List.map_cons, List.nodup_cons] at hN
    have hhead : r.name ∉ t.map (fun r => r.name) := hN.1
    have hN' : (t.map (fun r => r.name)).Nodup := hN.2
    unfold mapLookup
    simp only [List.foldl_cons]
    rcases List.mem_cons.mp he with rfl | hmem
    · rw [if_pos rfl]
      exact lookupFold_no_match e.name t
        (fun r' hr' heq => hhead (heq ▸ List.mem_map_of_mem (fun r => r.name) hr')) (some e)
    · have hr : r.name ≠ e.name := by
        intro heq
        exact hhead (heq ▸ List.mem_map_of_mem (fun r => r.name) hmem)
      rw [if_neg hr]
      exact ih hN' hmem

/-- The primary-key update leaves every row's name in place. -/
theorem updateSubsystemById_names (db : List SubRow) (i : Nat) (s : NewSubsystem) (now : Nat) :
    (updateSubsystemById db i s now).map (fun r => r.name) = db.map (fun r => r.name) := by
  unfold updateSubsystemById
  rw [List.map_map]
  apply List.map_congr_left
  intro r _
  by_cases h : r.id = i
  · simp [h, applySubsystemUpdate]
  · simp [h]

/-- A row untouched by any of the loop's updates survives unchanged. -/
theorem storeLoop_preserves (snap : List SubRow) (rid : String) (now : Nat) :
    ∀ (subs : List NewSubsystem) (db : List SubRow) (next : Nat) (r : SubRow), r ∈ db →
    (∀ s ∈ subs, ∀ e, mapLookup snap s.name = some e → e.id ≠ r.id) →
    r ∈ (storeLoop snap rid now db next subs).1 := by
  intro subs
  induction subs with
  | nil =>
    intro db next r hr _
    exact hr
  | cons s rest ih =>
    intro db next r hr hno
    simp only [storeLoop]
    cases hl : mapLookup snap s.name with
    | some e =>
      have hne : e.id ≠ r.id := hno s (List.mem_cons_self s rest) e hl
      refine ih _ next r ?_ (fun s' hs' => hno s' (List.mem_cons_of_mem s hs'))
      unfold updateSubsystemById
      exact List.mem_map.mpr ⟨r, hr, by rw [if_neg (fun h => hne h.symm)]⟩
    | none =>
      exact ih _ _ r (List.mem_append_left _ hr)
        (fun s' hs' => hno s' (List.mem_cons_of_mem s hs'))

/-- An unmatched classified subsystem is inserted as a fresh row whose id is
at least the insertion counter. -/
theorem storeLoop_inserts (snap : List SubRow) (rid : String) (now : Nat) :
    ∀ (subs : List NewSubsystem) (db : List SubRow) (next : Nat) (s : NewSubsystem),
    s ∈ subs → mapLookup snap s.name = none → (∀ e ∈ snap, e.id < next) →
    ∃ i, next ≤ i ∧ mkSubRow i rid s now ∈ (storeLoop snap rid now db next subs).1 := by
  intro subs
  induction subs with
  | nil =>
    intro db next s hs
    cases hs
  | cons s' rest ih =>
    intro db next s hs hl hfr
    rcases List.mem_cons.mp hs with rfl | hmem
    · simp only [storeLoop, hl]
      refine ⟨next, Nat.le_refl next, ?_⟩
      refine storeLoop_preserves snap rid now rest _ _ _
        (List.mem_append_right _ (List.mem_singleton.mpr rfl)) ?_
      intro s'' _ e he
      have hlt := hfr e (mapLookup_mem snap s''.name e he).1
      exact fun heq => Nat.lt_irrefl next (Eq.mp (by rw [heq]; rfl) hlt)
    · simp only [storeLoop]
      cases hl' : mapLookup snap s'.name with
      | some e => exact ih _ next s hmem hl hfr
      | none =>
        obtain ⟨i, hi, hmemf⟩ := ih _ (next + 1) s hmem hl
          (fun e he => Nat.lt_succ_of_lt (hfr e he))
        exact ⟨i, Nat.le_of_succ_le hi, hmemf⟩

/-- A classified subsystem whose name matches a snapshot row updates that
row in place: the merged row (same id, same name, new fields) is in the
final table. -/
theorem storeLoop_updates (snap : List SubRow) (rid : String) (now : Nat)
    (hN : (snap.map (fun r => r.name)).Nodup) (hI : (snap.map (fun r => r.id)).Nodup) :
    ∀ (subs : List NewSubsystem) (db : List SubRow) (next : Nat) (s : NewSubsystem)
    (e : SubRow), s ∈ subs → (subs.map (fun t => t.name)).Nodup →
    e ∈ snap → e.name = s.name → e ∈ db →
    applySubsystemUpdate e s now ∈ (storeLoop snap rid now db next subs).1 := by
  intro subs
  induction subs with
  | nil =>
    intro db next s e hs
    cases hs
  | cons s' rest ih =>
    intro db next s e hs hSnd he hname hedb
    rw [List.map_cons, List.nodup_cons] at hSnd
    have hSrest : (rest.map (fun t => t.name)).Nodup := hSnd.2
    have hShead : s'.name ∉ rest.map (fun t => t.name) := hSnd.1
    rcases List.mem_cons.mp hs with rfl | hmem
    · have hl : mapLookup snap s.name = some e := by
        rw [← hname]
        exact mapLookup_self snap e hN he
      simp only [storeLoop, hl]
      refine storeLoop_preserves snap rid now rest _ _ _ ?_ ?_
      · unfold updateSubsystemById
        exact List.mem_map.mpr ⟨e, hedb, by rw [if_pos rfl]⟩
      · intro s'' hs'' e'' he''
        obtain ⟨hmem'', hname''⟩ := mapLookup_mem snap s''.name e'' he''
        intro hid
        have heq : e'' = e := List.inj_on_of_nodup_map hI hmem'' he hid
        apply hShead
        have hname2 : s.name = s''.name := by
          rw [← hname, ← heq]
          exact hname''
        rw [hname2]
        exact List.mem_map_of_mem (fun t => t.name) hs''
    · have hsname : s.name ∈ rest.map (fun t => t.name) :=
        List.mem_map_of_mem (fun t => t.name) hmem
      simp only [storeLoop]
      cases hl' : mapLookup snap s'.name with
      | some e' =>
        have hname' : e'.name = s'.name := (mapLookup_mem snap s'.name e' hl').2
        have hne : e' ≠ e := by
          intro heq
          apply hShead
          rw [← hname', heq, hname] at *
          exact hsname
        have hid : e'.id ≠ e.id := by
          intro heq
          exact hne (List.inj_on_of_nodup_map hI (mapLookup_mem snap s'.name e' hl').1 he heq)
        refine ih _ next s e hmem hSrest he hname ?_
        unfold updateSubsystemById
        exact List.mem_map.mpr ⟨e, hedb, by rw [if_neg (fun h => hid h.symm)]⟩
      | none =>
        exact ih _ _ s e hmem hSrest he hname (List.mem_append_left _ hedb)

/-- The final table's name column is the snapshot's names followed by the
names of the unmatched (inserted) classified subsystems, in order. -/
theorem storeLoop_names (snap : List SubRow) (rid : String) (now : Nat) :
    ∀ (subs : List NewSubsystem) (db : List SubRow) (next : Nat),
    ((storeLoop snap rid now db next subs).1).map (fun r => r.name) =
      db.map (fun r => r.name) ++
        (subs.filter (fun s => (mapLookup snap s.name).isNone)).map (fun s => s.name) := by
  intro subs
  induction subs with
  | nil =>
    intro db next
    simp [storeLoop]
  | cons s rest ih =>
    intro db next
    simp only [storeLoop, List.filter_cons]
    cases hl : mapLookup snap s.name with
    | some e =>
      simp only [hl, Option.isSome_some, Option.isNone_some, Bool.false_eq_true, if_false]
      rw [ih, updateSubsystemById_names]
    | none =>
      simp only [hl, Option.isNone_none, if_true]
      rw [ih]
      simp [mkSubRow]

/-- C3 (amended).  On re-analysis, provided the classified subsystem names
are pairwise distinct (and the stored rows satisfy the natural-key and
primary-key invariants: distinct names, distinct ids, ids below the fresh
counter): every classified subsystem matching an existing row by name
updates that row in place (same id, same name, new description/type/files/
entry points/dependencies/complexity and fresh updated timestamp); every
unmatched one is inserted as a fresh row; every existing row absent from
the classification is left unchanged; and the final table has no duplicate
name.  Without distinctness of the classified names the code does create
duplicate rows (see the counterexample). -/
theorem reanalysis_merge (rid : String) (existing : List SubRow)
    (newSubs : List NewSubsystem) (next0 now : Nat)
    (hN : (existing.map (fun r => r.name)).Nodup)
    (hI : (existing.map (fun r => r.id)).Nodup)
    (hF : ∀ r ∈ existing, r.id < next0)
    (hS : (newSubs.map (fun s => s.name)).Nodup) :
    (∀ s ∈ newSubs, ∀ e ∈ existing, e.name = s.name →
      applySubsystemUpdate e s now ∈ (storeSubsystems true rid existing newSubs next0 now).1) ∧
    (∀ (e : SubRow) (s : NewSubsystem), (applySubsystemUpdate e s now).id = e.id ∧
      (applySubsystemUpdate e s now).name = e.name ∧
      (applySubsystemUpdate e s now).description = s.description ∧
      (applySubsystemUpdate e s now).files = s.files ∧
      (applySubsystemUpdate e s now).updatedAt = now) ∧
    (∀ s ∈ newSubs, (∀ e ∈ existing, e.name ≠ s.name) →
      ∃ i, next0 ≤ i ∧
        mkSubRow i rid s now ∈ (storeSubsystems true rid existing newSubs next0 now).1) ∧
    (∀ e ∈ existing, (∀ s ∈ newSubs, s.name ≠ e.name) →
      e ∈ (storeSubsystems true rid existing newSubs next0 now).1) ∧
    (((storeSubsystems true rid existing newSubs next0 now).1).map (fun r => r.name)).Nodup := by
  unfold storeSubsystems
  simp only [if_true]
  refine ⟨?_, fun e s => ⟨rfl, rfl, rfl, rfl, rfl⟩, ?_, ?_, ?_⟩
  · intro s hs e he hname
    exact storeLoop_updates existing rid now hN hI newSubs existing next0 s e hs hS he hname he
  · intro s hs hno
    exact storeLoop_inserts existing rid now newSubs existing next0 s hs
      ((mapLookup_none_iff existing s.name).mpr hno) hF
  · intro e he hno
    refine storeLoop_preserves existing rid now newSubs existing next0 e he ?_
    intro s hs e' he'
    obtain ⟨hmem', hname'⟩ := mapLookup_mem existing s.name e' he'
    intro hid
    have heq : e' = e := List.inj_on_of_nodup_map hI hmem' he hid
    exact hno s hs (by rw [← hname', heq])
  · rw [storeLoop_names]
    rw [List.nodup_append]
    refine ⟨hN, ?_, ?_⟩
    · exact ((List.filter_sublist newSubs).map (fun s => s.name)).nodup hS
    · intro x hx hx'
      obtain ⟨s, hsmem, rfl⟩ := List.mem_map.mp hx'
      have hnone := (List.mem_filter.mp hsmem).2
      have hno := (mapLookup_none_iff existing s.name).mp (by simpa using hnone)
      obtain ⟨e, hemem, hename⟩ := List.mem_map.mp hx
      exact hno e hemem hename

/-- The stored subsystem of the counterexample repository. -/
def c3cli : SubRow := ⟨0, "r", "CLI", some "old", "cli", [], [], [], some "low", 0⟩

/-- A classified subsystem whose name matches no stored row. -/
def c3api : NewSubsystem := ⟨"API", some "new api", "api", [], [], [], some "medium"⟩

/-- C3, counterexample to the claim as stated: when the classification
itself repeats a new name (the snapshot map is consulted, not the growing
table), the loop inserts one row per occurrence, creating duplicate rows
for that name. -/
theorem reanalysis_merge_counterexample :
    ((storeSubsystems true "r" [c3cli] [c3api, c3api] 1 5).1).map (fun r => r.name) =
      ["CLI", "API", "API"] ∧
    ¬ (((storeSubsystems true "r" [c3cli] [c3api, c3api] 1 5).1).map
        (fun r => r.name)).Nodup := by
  exact ⟨rfl, by decide⟩

/-- The re-classified CLI subsystem for the witness. -/
def c3cliNew : NewSubsystem := ⟨"CLI", some "updated", "cli", ["src/cli.py"], [], [], some "medium"⟩

/-- Witness for C3 at the spec's own scenario: existing "CLI", new
classification ["CLI" (updated), "API" (new)]: the updated CLI row (same
id 0) is in the final table. -/
theorem reanalysis_merge_witness :
    applySubsystemUpdate c3cli c3cliNew 7 ∈
      (storeSubsystems true "r" [c3cli] [c3cliNew, c3api] 1 7).1 :=
  (reanalysis_merge "r" [c3cli] [c3cliNew, c3api] 1 7 (by decide) (by decide)
      (by decide) (by decide)).1
    c3cliNew (by decide) c3cli (by decide) rfl

end Wikigitia